import Mathlib

/-!
# Verification of the s2-pmtiles core against its specification

This file shallowly embeds the core of the `s2-pmtiles` TypeScript repository
in Lean 4 and settles the frozen claims C1 - C10 about it.

Conventions of the embedding:
* JavaScript numbers that hold non-negative integers are modelled as `Nat`;
  quantities that can go negative (Hilbert rotation intermediates, binary
  search cursors, tile coordinates fed to `zxyToTileID`) are modelled as `Int`.
* Where the source applies a JavaScript bitwise operator, the operands are
  first wrapped to their 32-bit two's-complement pattern (`ToInt32`), which we
  model as `(· .emod 2^32).toNat` on `Int`, or directly as `Nat` bit operations
  when the operand is provably a non-negative integer below `2^31`.
* `Uint8Array` buffers are modelled as `List Nat` of byte values; a write past
  the end zero-extends the list, matching a freshly allocated (zero-filled)
  typed array.  Fallible code returns `Except String`.
-/

set_option maxHeartbeats 1600000
set_option linter.all false

namespace S2PMTiles

/-! ## Byte buffers (`varint.ts`: `BufferPosition`, `realloc`) -/

/-- A byte list extended with zeros so that index `i` exists, then set there.
This models a store `buf[i] = v` into a zero-initialised `Uint8Array` that is
`realloc`ed on demand (the source's `realloc` zero-fills fresh space). -/
def setByte (l : List Nat) (i v : Nat) : List Nat :=
  (l ++ List.replicate (i + 1 - l.length) 0).set i v

/-- Read `buf[i]`; out-of-range reads give `0` (the source never reads past the
written prefix on the inputs considered here). -/
def getByte (l : List Nat) (i : Nat) : Nat :=
  l.getD i 0

/-- `varint.ts` `BufferPosition`: a buffer with the position to read/write. -/
structure BufferPosition where
  buf : List Nat
  pos : Nat
deriving Repr, DecidableEq

/-- `bufPos.buf[bufPos.pos++] = v`. -/
def writeByte (p : BufferPosition) (v : Nat) : BufferPosition :=
  ⟨setByte p.buf p.pos v, p.pos + 1⟩

/-! ## Varint codec (`varint.ts`) -/

/-- `toNum(low, high)`: recombine the two 32-bit halves.  The source applies
`>>> 0` to both halves, i.e. interprets each as its unsigned 32-bit pattern;
our halves are already `Nat` patterns. -/
def toNum (low high : Nat) : Nat :=
  high * 4294967296 + low

/-- `writeBigVarintLow`: emit the five low bytes.  The fifth byte is stored at
`pos` without advancing (`bufPos.buf[bufPos.pos] = low & 0x7f`), because
`writeBigVarintHigh` merges the low bits of `high` into that same byte. -/
def writeBigVarintLow (low _high : Nat) (p : BufferPosition) : BufferPosition :=
  let p1 := writeByte p ((low &&& 0x7f) ||| 0x80)
  let l1 := low >>> 7
  let p2 := writeByte p1 ((l1 &&& 0x7f) ||| 0x80)
  let l2 := l1 >>> 7
  let p3 := writeByte p2 ((l2 &&& 0x7f) ||| 0x80)
  let l3 := l2 >>> 7
  let p4 := writeByte p3 ((l3 &&& 0x7f) ||| 0x80)
  let l4 := l3 >>> 7
  ⟨setByte p4.buf p4.pos (l4 &&& 0x7f), p4.pos⟩

/-- `writeBigVarintHigh`: merge the three low bits of `high` into the byte at
`pos` (with `|=`), then emit up to five further 7-bit groups. -/
def writeBigVarintHigh (high : Nat) (p : BufferPosition) : BufferPosition :=
  let lsb := (high &&& 0x07) <<< 4
  let h0 := high >>> 3
  let b := getByte p.buf p.pos
  let p1 : BufferPosition :=
    ⟨setByte p.buf p.pos (b ||| (lsb ||| (if h0 ≠ 0 then 0x80 else 0))), p.pos + 1⟩
  if h0 = 0 then p1 else
  let h1 := h0 >>> 7
  let p2 := writeByte p1 ((h0 &&& 0x7f) ||| (if h1 ≠ 0 then 0x80 else 0))
  if h1 = 0 then p2 else
  let h2 := h1 >>> 7
  let p3 := writeByte p2 ((h1 &&& 0x7f) ||| (if h2 ≠ 0 then 0x80 else 0))
  if h2 = 0 then p3 else
  let h3 := h2 >>> 7
  let p4 := writeByte p3 ((h2 &&& 0x7f) ||| (if h3 ≠ 0 then 0x80 else 0))
  if h3 = 0 then p4 else
  let h4 := h3 >>> 7
  let p5 := writeByte p4 ((h3 &&& 0x7f) ||| (if h4 ≠ 0 then 0x80 else 0))
  if h4 = 0 then p5 else
  writeByte p5 (h4 &&& 0x7f)

/-- `writeBigVarint`.  `low = val % 2^32 | 0` and `high = (val / 2^32) | 0`:
for a non-negative integer `val`, `%` is exact and division by `2^32` is exact
in doubles, so these are `Nat` `%` and `/`; `| 0` only reinterprets the 32-bit
pattern, which the later pattern-level operations do not observe.  The `val < 0`
branch is unreachable for `Nat` inputs.  The guard `val >= 2^64` throws. -/
def writeBigVarint (val : Nat) (p : BufferPosition) : Except String BufferPosition :=
  let low := val % 4294967296
  let high := val / 4294967296
  if val ≥ 18446744073709551616 then
    .error "Given varint does not fit into 10 bytes"
  else
    .ok (writeBigVarintHigh high (writeBigVarintLow low high p))

/-- `writeVarint`: values above `0x0fffffff` (and negatives, impossible here)
go through `writeBigVarint`; otherwise up to four 7-bit groups are written. -/
def writeVarint (val : Nat) (p : BufferPosition) : Except String BufferPosition :=
  if val > 0xfffffff then writeBigVarint val p
  else
    let p1 := writeByte p ((val &&& 0x7f) ||| (if val > 0x7f then 0x80 else 0))
    if val ≤ 0x7f then .ok p1 else
    let v1 := val >>> 7
    let p2 := writeByte p1 ((v1 &&& 0x7f) ||| (if v1 > 0x7f then 0x80 else 0))
    if v1 ≤ 0x7f then .ok p2 else
    let v2 := v1 >>> 7
    let p3 := writeByte p2 ((v2 &&& 0x7f) ||| (if v2 > 0x7f then 0x80 else 0))
    if v2 ≤ 0x7f then .ok p3 else
    .ok (writeByte p3 ((v2 >>> 7) &&& 0x7f))

/-- `readVarintRemainder`: continue after the fifth byte.  The fifth byte is
read again (the caller did not advance past it); an eleventh continuation byte
is a protocol error. -/
def readVarintRemainder (low : Nat) (p : BufferPosition) :
    Except String (Nat × BufferPosition) :=
  let b5 := getByte p.buf p.pos
  let h0 := (b5 &&& 0x70) >>> 4
  if b5 < 0x80 then .ok (toNum low h0, ⟨p.buf, p.pos + 1⟩) else
  let b6 := getByte p.buf (p.pos + 1)
  let h1 := h0 ||| ((b6 &&& 0x7f) <<< 3)
  if b6 < 0x80 then .ok (toNum low h1, ⟨p.buf, p.pos + 2⟩) else
  let b7 := getByte p.buf (p.pos + 2)
  let h2 := h1 ||| ((b7 &&& 0x7f) <<< 10)
  if b7 < 0x80 then .ok (toNum low h2, ⟨p.buf, p.pos + 3⟩) else
  let b8 := getByte p.buf (p.pos + 3)
  let h3 := h2 ||| ((b8 &&& 0x7f) <<< 17)
  if b8 < 0x80 then .ok (toNum low h3, ⟨p.buf, p.pos + 4⟩) else
  let b9 := getByte p.buf (p.pos + 4)
  let h4 := h3 ||| ((b9 &&& 0x7f) <<< 24)
  if b9 < 0x80 then .ok (toNum low h4, ⟨p.buf, p.pos + 5⟩) else
  let b10 := getByte p.buf (p.pos + 5)
  let h5 := h4 ||| ((b10 &&& 0x01) <<< 31)
  if b10 < 0x80 then .ok (toNum low h5, ⟨p.buf, p.pos + 6⟩) else
  .error "Expected varint not more than 10 bytes"

/-- `readVarint`: accumulate up to four 7-bit groups plus the four low bits of
the fifth byte into the low half, then hand over to `readVarintRemainder`
without consuming the fifth byte.  All accumulations stay below `2^32`; the
source's transient `Int32` sign on the fifth group is pattern-invisible. -/
def readVarint (p : BufferPosition) : Except String (Nat × BufferPosition) :=
  let b0 := getByte p.buf p.pos
  let v0 := b0 &&& 0x7f
  if b0 < 0x80 then .ok (v0, ⟨p.buf, p.pos + 1⟩) else
  let b1 := getByte p.buf (p.pos + 1)
  let v1 := v0 ||| ((b1 &&& 0x7f) <<< 7)
  if b1 < 0x80 then .ok (v1, ⟨p.buf, p.pos + 2⟩) else
  let b2 := getByte p.buf (p.pos + 2)
  let v2 := v1 ||| ((b2 &&& 0x7f) <<< 14)
  if b2 < 0x80 then .ok (v2, ⟨p.buf, p.pos + 3⟩) else
  let b3 := getByte p.buf (p.pos + 3)
  let v3 := v2 ||| ((b3 &&& 0x7f) <<< 21)
  if b3 < 0x80 then .ok (v3, ⟨p.buf, p.pos + 4⟩) else
  let b4 := getByte p.buf (p.pos + 4)
  let v4 := v3 ||| ((b4 &&& 0x0f) <<< 28)
  readVarintRemainder v4 ⟨p.buf, p.pos + 4⟩

/-- The `k`-th little-endian 7-bit group of `v` (proof-side description). -/
def grp (v k : Nat) : Nat :=
  v / 128 ^ k % 128

/-- The byte sequence `writeVarint` produces for `v < 2^64` (proof-side
description, established against the source functions below): little-endian
7-bit groups with continuation bit `0x80` on all but the last byte; values that
take the `writeBigVarint` path occupy at least five bytes. -/
def encBytes (v : Nat) : List Nat :=
  if v < 128 then [grp v 0]
  else if v < 16384 then [grp v 0 + 128, grp v 1]
  else if v < 2097152 then [grp v 0 + 128, grp v 1 + 128, grp v 2]
  else if v < 268435456 then [grp v 0 + 128, grp v 1 + 128, grp v 2 + 128, grp v 3]
  else if v < 34359738368 then
    [grp v 0 + 128, grp v 1 + 128, grp v 2 + 128, grp v 3 + 128, grp v 4]
  else if v < 4398046511104 then
    [grp v 0 + 128, grp v 1 + 128, grp v 2 + 128, grp v 3 + 128, grp v 4 + 128, grp v 5]
  else if v < 562949953421312 then
    [grp v 0 + 128, grp v 1 + 128, grp v 2 + 128, grp v 3 + 128, grp v 4 + 128,
     grp v 5 + 128, grp v 6]
  else if v < 72057594037927936 then
    [grp v 0 + 128, grp v 1 + 128, grp v 2 + 128, grp v 3 + 128, grp v 4 + 128,
     grp v 5 + 128, grp v 6 + 128, grp v 7]
  else if v < 9223372036854775808 then
    [grp v 0 + 128, grp v 1 + 128, grp v 2 + 128, grp v 3 + 128, grp v 4 + 128,
     grp v 5 + 128, grp v 6 + 128, grp v 7 + 128, grp v 8]
  else
    [grp v 0 + 128, grp v 1 + 128, grp v 2 + 128, grp v 3 + 128, grp v 4 + 128,
     grp v 5 + 128, grp v 6 + 128, grp v 7 + 128, grp v 8 + 128, grp v 9]

/-! ## Directory entries and the directory codec (`pmtiles.ts`) -/

/-- PMTiles v3 directory entry. -/
structure Entry where
  tileID : Nat
  offset : Nat
  length : Nat
  runLength : Nat
deriving Repr, DecidableEq

/-- The first serialization loop of `serializeDir`: delta-encode `tileID`
against `lastID`.  The subtraction is `Nat` subtraction; the source relies on
entries being sorted ascending (a negative JavaScript delta would corrupt the
stream), which claim C2 guarantees. -/
def writeEntriesDelta : List Entry → Nat → BufferPosition → Except String BufferPosition
  | [], _, p => .ok p
  | e :: rest, lastID, p =>
    match writeVarint (e.tileID - lastID) p with
    | .error err => .error err
    | .ok p1 => writeEntriesDelta rest e.tileID p1

/-- One of the three columnar loops of `serializeDir`, writing `f` of each
entry (`runLength`, `length`, or `offset + 1`). -/
def writeEntriesField (f : Entry → Nat) : List Entry → BufferPosition → Except String BufferPosition
  | [], p => .ok p
  | e :: rest, p =>
    match writeVarint (f e) p with
    | .error err => .error err
    | .ok p1 => writeEntriesField f rest p1

/-- `serializeDir`: count, tileID deltas, run lengths, lengths, offsets + 1,
then the whole buffer (its written prefix) through the compressor. -/
def serializeDir (entries : List Entry) (compressor : List Nat → List Nat) :
    Except String (List Nat) :=
  match writeVarint entries.length ⟨[], 0⟩ with
  | .error err => .error err
  | .ok d1 =>
    match writeEntriesDelta entries 0 d1 with
    | .error err => .error err
    | .ok d2 =>
      match writeEntriesField (fun e => e.runLength) entries d2 with
      | .error err => .error err
      | .ok d3 =>
        match writeEntriesField (fun e => e.length) entries d3 with
        | .error err => .error err
        | .ok d4 =>
          match writeEntriesField (fun e => e.offset + 1) entries d4 with
          | .error err => .error err
          | .ok d5 => .ok (compressor (d5.buf.take d5.pos))

/-- The first deserialization loop of `deserializeDir`: read `numEntries`
deltas, building entries with `offset = 0`, `length = 0`, `runLength = 1`. -/
def readEntriesDelta : Nat → Nat → BufferPosition → Except String (List Entry × BufferPosition)
  | 0, _, p => .ok ([], p)
  | n + 1, lastID, p =>
    match readVarint p with
    | .error err => .error err
    | .ok (v, p1) =>
      match readEntriesDelta n (lastID + v) p1 with
      | .error err => .error err
      | .ok (rest, p2) =>
        .ok ({ tileID := lastID + v, offset := 0, length := 0, runLength := 1 } :: rest, p2)

/-- Read `n` varints (one column of `deserializeDir`). -/
def readFields : Nat → BufferPosition → Except String (List Nat × BufferPosition)
  | 0, p => .ok ([], p)
  | n + 1, p =>
    match readVarint p with
    | .error err => .error err
    | .ok (v, p1) =>
      match readFields n p1 with
      | .error err => .error err
      | .ok (vs, p2) => .ok (v :: vs, p2)

/-- `for i: entries[i].runLength = readVarint(p)`. -/
def setRunLengths : List Entry → List Nat → List Entry
  | e :: es, v :: vs => { e with runLength := v } :: setRunLengths es vs
  | es, _ => es

/-- `for i: entries[i].length = readVarint(p)`. -/
def setLengths : List Entry → List Nat → List Entry
  | e :: es, v :: vs => { e with length := v } :: setLengths es vs
  | es, _ => es

/-- The offset loop of `deserializeDir`: a decoded `0` at `i > 0` (`prev` is
set) means `offset = offset_prev + length_prev`; otherwise `offset = v - 1`
(`Nat` subtraction; the source would produce `-1` for `v = 0` at `i = 0`,
which never happens on serializer output). -/
def setOffsets : List Entry → List Nat → Option (Nat × Nat) → List Entry
  | e :: es, v :: vs, prev =>
    let off :=
      match prev with
      | some (po, pl) => if v = 0 then po + pl else v - 1
      | none => v - 1
    let e2 := { e with offset := off }
    e2 :: setOffsets es vs (some (off, e2.length))
  | es, _, _ => es

/-- `deserializeDir`: count, tileID deltas, then the three columns. -/
def deserializeDir (buffer : List Nat) : Except String (List Entry) :=
  match readVarint ⟨buffer, 0⟩ with
  | .error err => .error err
  | .ok (numEntries, p) =>
    match readEntriesDelta numEntries 0 p with
    | .error err => .error err
    | .ok (entries, p1) =>
      match readFields numEntries p1 with
      | .error err => .error err
      | .ok (rls, p2) =>
        match readFields numEntries p2 with
        | .error err => .error err
        | .ok (lens, p3) =>
          match readFields numEntries p3 with
          | .error err => .error err
          | .ok (offs, _) =>
            .ok (setOffsets (setLengths (setRunLengths entries rls) lens) offs none)

/-- The binary-search loop of `findTile`.  `m` and `n` are the JavaScript
cursor variables (`n` reaches `-1`, hence `Int`); `(n + m) >> 1` is an
arithmetic shift, i.e. floor division by two, which is `Int` division here.
`entries[k]` is in bounds in every reachable state; out-of-range access is
modelled by a zero entry.  Returns the found entry (if any) and the final `n`. -/
def findTileLoop (entries : List Entry) (tileID : Nat) (m n : Int) : Option Entry × Int :=
  if _h : m ≤ n then
    let k := (n + m) / 2
    let e := entries.getD k.toNat ⟨0, 0, 0, 0⟩
    if (tileID : Int) - e.tileID > 0 then findTileLoop entries tileID (k + 1) n
    else if (tileID : Int) - e.tileID < 0 then findTileLoop entries tileID m (k - 1)
    else (some e, n)
  else (none, n)
termination_by (n + 1 - m).toNat
decreasing_by all_goals omega

/-- `findTile`: binary search; on a miss inspect the final candidate
`entries[n]`: a leaf pointer (`runLength == 0`) or a hit within a run is
returned, anything else is `null`. -/
def findTile (entries : List Entry) (tileID : Nat) : Option Entry :=
  match findTileLoop entries tileID 0 ((entries.length : Int) - 1) with
  | (some e, _) => some e
  | (none, n) =>
    if n ≥ 0 then
      let e := entries.getD n.toNat ⟨0, 0, 0, 0⟩
      if e.runLength = 0 then some e
      else if (tileID : Int) - e.tileID < e.runLength then some e
      else none
    else none

/-- Proof-side: the bytes the delta loop emits. -/
def deltaBytes : List Entry → Nat → List Nat
  | [], _ => []
  | e :: rest, lastID => encBytes (e.tileID - lastID) ++ deltaBytes rest e.tileID

/-- Proof-side: the concatenated encodings of a list of values. -/
def catBytes : List Nat → List Nat
  | [] => []
  | v :: vs => encBytes v ++ catBytes vs

/-- Proof-side: an entry as the delta loop of `deserializeDir` first builds it. -/
def resetEntry (e : Entry) : Entry :=
  ⟨e.tileID, 0, 0, 1⟩

/-! ## Hilbert curve tile IDs (`pmtiles.ts`) -/

/-- `rotate(n, xy, rx, ry)`: when `ry == 0`, optionally reflect (`rx == 1`,
`xy := n - 1 - xy`) and then swap the two coordinates. -/
def rotate (n : Nat) (x y : Int) (rx ry : Nat) : Int × Int :=
  if ry = 0 then
    if rx = 1 then ((n : Int) - 1 - y, (n : Int) - 1 - x)
    else (y, x)
  else (x, y)

/-- JavaScript `(a & s) > 0` operates on `ToInt32(a)`; for the masks used here
(`s < 2^31`) the result equals masking `a mod 2^32`. -/
def jsAnd (a : Int) (s : Nat) : Nat :=
  ((a % 4294967296 : Int)).toNat &&& s

/-- The integral iterations of the `zxyToTileID` accumulation loop, `s` running
`2^(fuel-1), ..., 2, 1`.  In the source `s` keeps halving as a float below `1`
until it underflows to `0`; those iterations mask with `ToInt32(s) = 0`, so
`rx = ry = 0` and they add `0` to `d`; they are dropped here. -/
def zxyGo (x y : Int) : Nat → Nat
  | 0 => 0
  | j + 1 =>
    let s := 2 ^ j
    let rx := if jsAnd x s > 0 then 1 else 0
    let ry := if jsAnd y s > 0 then 1 else 0
    let p2 := rotate s x y rx ry
    s * s * ((3 * rx) ^^^ ry) + zxyGo p2.1 p2.2 j

/-- The `tzValues` table: `tzValues[z]` is the first tile ID on level `z`. -/
def tzValues : List Nat :=
  [0, 1, 5, 21, 85, 341, 1365, 5461, 21845, 87381, 349525, 1398101, 5592405,
   22369621, 89478485, 357913941, 1431655765, 5726623061, 22906492245,
   91625968981, 366503875925, 1466015503701, 5864062014805, 23456248059221,
   93824992236885, 375299968947541, 1501199875790165]

/-- `zxyToTileID`: guard `zoom > 26`, then `x > 2**zoom - 1 || y > 2**zoom - 1`
(there is no lower-bound check), then accumulate the Hilbert position.  Errors
model the two `throw Error(...)` statements. -/
def zxyToTileID (zoom : Nat) (x y : Int) : Except String Nat :=
  if zoom > 26 then .error "Tile zoom level exceeds max safe number limit (26)"
  else if x > 2 ^ zoom - 1 ∨ y > 2 ^ zoom - 1 then
    .error "tile x/y outside zoom level bounds"
  else .ok (tzValues.getD zoom 0 + zxyGo x y zoom)

/-- The `idOnLevel` loop, `s` running `1, 2, ..., 2^(rem-1)`.  The source keeps
`t = pos / 4^k` as an exact binary float and masks `1 & ToInt32(t / 2)` and
`1 & (t ^ rx)`; truncations compose, so `t`s floor is recomputed from `pos`
here (`s * s = 4^k`). -/
def idGo (pos : Nat) : Int → Int → Nat → Nat → Int × Int
  | x, y, _, 0 => (x, y)
  | x, y, s, r + 1 =>
    let t := pos / (s * s)
    let rx := t / 2 % 2
    let ry := (t ^^^ rx) % 2
    let p2 := rotate s x y rx ry
    idGo pos (p2.1 + s * rx) (p2.2 + s * ry) (s * 2) r

/-- `idOnLevel(zoom, pos)`: decode a position on one level to `[zoom, x, y]`. -/
def idOnLevel (zoom pos : Nat) : Nat × Int × Int :=
  let xy := idGo pos 0 0 1 zoom
  (zoom, xy.1, xy.2)

/-- The `for (let z = 0; z < 27; z++)` search of `tileIDToZxy`; `fuel` is the
number of levels still to try (`27` at the top call). -/
def tileIDToZxyGo (i : Nat) : Nat → Nat → Nat → Except String (Nat × Int × Int)
  | _, _, 0 => .error "Tile zoom level exceeds max safe number limit (26)"
  | acc, z, f + 1 =>
    let numTiles := 2 ^ z * 2 ^ z
    if acc + numTiles > i then .ok (idOnLevel z (i - acc))
    else tileIDToZxyGo i (acc + numTiles) (z + 1) f

/-- `tileIDToZxy`: find the level whose ID range contains `i`, decode there. -/
def tileIDToZxy (i : Nat) : Except String (Nat × Int × Int) :=
  tileIDToZxyGo i 0 0 27

/-- Proof-side: one iteration of the `idOnLevel` loop at scale `s`. -/
def decStep (pos s : Nat) (p : Int × Int) : Int × Int :=
  let t := pos / (s * s)
  let rx := t / 2 % 2
  let ry := (t ^^^ rx) % 2
  let p2 := rotate s p.1 p.2 rx ry
  (p2.1 + s * rx, p2.2 + s * ry)

/-! ## The reader tile walk (`PMTilesReader.#getTile`) -/

/-- The reader state the `#getTile` walk depends on: `dirAt o l` is the
directory `#getDirectory(o, l)` yields (`none` = `undefined`), plus the two
header offsets the loop reads. -/
structure WalkEnv where
  dirAt : Nat → Nat → Option (List Entry)
  tileDataOffset : Nat
  leafDirectoryOffset : Nat

/-- The `for (let depth = 0; depth <= 3; depth++)` loop of `#getTile`: at each
level fetch the directory (`undefined` → not found), `findTile`; a
`runLength > 0` entry is a tile hit (the range request is returned), a
`runLength == 0` entry descends into the leaf directory.  Running out of
iterations models the `throw` after the loop. -/
def getTileGo (env : WalkEnv) (tileID : Nat) : Nat → Nat → Nat → Except String (Option (Nat × Nat))
  | _, _, 0 => .error "Maximum directory depth exceeded"
  | dO, dL, f + 1 =>
    match env.dirAt dO dL with
    | none => .ok none
    | some directory =>
      match findTile directory tileID with
      | none => .ok none
      | some entry =>
        if entry.runLength > 0 then
          .ok (some (env.tileDataOffset + entry.offset, entry.length))
        else getTileGo env tileID (env.leafDirectoryOffset + entry.offset) entry.length f

/-- `#getTile` starting from the root directory location: at most four
directory levels are visited. -/
def getTileWalk (env : WalkEnv) (tileID dO dL : Nat) : Except String (Option (Nat × Nat)) :=
  getTileGo env tileID dO dL 4

/-- Proof-side: one leaf descent: the directory at `p` resolves and `findTile`
returns a `runLength = 0` entry pointing at `q`. -/
def leafStep (env : WalkEnv) (tileID : Nat) (p q : Nat × Nat) : Prop :=
  ∃ dir entry, env.dirAt p.1 p.2 = some dir ∧ findTile dir tileID = some entry ∧
    entry.runLength = 0 ∧ q = (env.leafDirectoryOffset + entry.offset, entry.length)

/-- Proof-side: a chain of `n` leaf descents from `p` to `q`. -/
def leafChain (env : WalkEnv) (tileID : Nat) : Nat → (Nat × Nat) → (Nat × Nat) → Prop
  | 0, p, q => p = q
  | n + 1, p, q => ∃ r, leafStep env tileID p r ∧ leafChain env tileID n r q

/-! ## The planar writer commit (`metadata.ts`) -/

def S2_HEADER_SIZE_BYTES : Nat := 262

def S2_ROOT_SIZE : Nat := 98304

/-- The `while (i < entries.length)` loop of `buildRootsLeaves`: chunk the
entries into groups of `leafSize`, serialize each, record a `runLength = 0`
root entry per chunk.  `leafSize = 0` would loop forever in the source; call
sites only pass `4096 * 2^k`, and the recursion peels `head` plus
`leafSize - 1` more entries per step. -/
def buildLeavesGo (leafSize : Nat) : List Entry → Nat → Except String (List Entry × List Nat × Nat)
  | [], _ => .ok ([], [], 0)
  | e :: rest, accOff =>
    match serializeDir ((e :: rest).take leafSize) (fun b => b) with
    | .error err => .error err
    | .ok serialized =>
      match buildLeavesGo leafSize (rest.drop (leafSize - 1)) (accOff + serialized.length) with
      | .error err => .error err
      | .ok (roots, leaves, n) =>
        .ok (⟨e.tileID, accOff, serialized.length, 0⟩ :: roots, serialized ++ leaves, n + 1)
termination_by l _ => l.length
decreasing_by simp [List.length_drop]; omega

/-- `buildRootsLeaves(entries, leafSize)`: the serialized root directory, the
concatenated leaf bytes and the number of leaves. -/
def buildRootsLeaves (entries : List Entry) (leafSize : Nat) :
    Except String (List Nat × List Nat × Nat) :=
  match buildLeavesGo leafSize entries 0 with
  | .error err => .error err
  | .ok (rootEntries, leavesBytes, numLeaves) =>
    match serializeDir rootEntries (fun b => b) with
    | .error err => .error err
    | .ok rootBytes => .ok (rootBytes, leavesBytes, numLeaves)

/-- The `while (true)` leaf-size search of `optimizeDirectories`, doubling
`leafSize` until the root fits; the source loops forever when no split ever
fits, modelled by fuel exhaustion. -/
def optLoop (entries : List Entry) (target : Int) : Nat → Nat → Except String (List Nat × List Nat × Nat)
  | _, 0 => .error "leaf size search did not converge"
  | leafSize, f + 1 =>
    match buildRootsLeaves entries leafSize with
    | .error err => .error err
    | .ok b =>
      if (b.1.length : Int) < target then .ok b else optLoop entries target (leafSize * 2) f

/-- `optimizeDirectories(entries, targetRootLength)`: keep a flat root when it
fits the budget, otherwise split into leaves. -/
def optimizeDirectories (entries : List Entry) (targetRootLength : Int) (fuel : Nat) :
    Except String (List Nat × List Nat × Nat) :=
  match serializeDir entries (fun b => b) with
  | .error err => .error err
  | .ok testBytes =>
    if (testBytes.length : Int) < targetRootLength then .ok (testBytes, [], 0)
    else optLoop entries targetRootLength 4096 fuel

/-- The header fields `PMTilesWriter.#commit` computes, plus the
`targetRootLength` budget it passes to `optimizeDirectories` (recorded so the
budget is observable). -/
structure HeaderM where
  rootDirectoryOffset : Nat
  rootDirectoryLength : Nat
  jsonMetadataOffset : Nat
  jsonMetadataLength : Nat
  leafDirectoryOffset : Nat
  leafDirectoryLength : Nat
  tileDataOffset : Nat
  tileDataLength : Nat
  numTileEntries : Nat
  targetRootLength : Int
  deriving Repr, DecidableEq

/-- The layout computation of the planar `#commit`: `metadataLength` is the
byte length of the JSON metadata, `offset` the accumulated tile-data length
(`this.#offset`). -/
def commitModel (tileEntries : List Entry) (metadataLength offset fuel : Nat) :
    Except String HeaderM :=
  let target : Int := (S2_ROOT_SIZE : Int) - S2_HEADER_SIZE_BYTES - metadataLength
  match optimizeDirectories tileEntries target fuel with
  | .error err => .error err
  | .ok (rootBytes, leavesBytes, _) =>
    .ok { rootDirectoryOffset := S2_HEADER_SIZE_BYTES
          rootDirectoryLength := rootBytes.length
          jsonMetadataOffset := S2_HEADER_SIZE_BYTES + rootBytes.length
          jsonMetadataLength := metadataLength
          leafDirectoryOffset := offset + S2_ROOT_SIZE
          leafDirectoryLength := leavesBytes.length
          tileDataOffset := S2_ROOT_SIZE
          tileDataLength := offset + leavesBytes.length
          numTileEntries := tileEntries.length
          targetRootLength := target }

/-! ## The writer `writeTile` dedup path (`metadata.ts`) -/

/-- The `PMTilesWriter` state `writeTile` touches (single planar face). -/
structure WriterState where
  tileEntries : List Entry
  hashToOffset : List (Nat × Nat)
  offset : Nat
  addressedTiles : Nat
  clustered : Bool
  fileBytes : List Nat
  deriving Repr, DecidableEq

/-- `writeTile(tileID, data)` with the payload hash supplied as a function.
On a dedup hit whose run-extension condition holds the source executes
`tileEntries[-1].runLength++`; `[-1]` is a plain property access in
JavaScript, `tileEntries[-1]` is `undefined`, and the statement throws a
`TypeError` (modelled as an error). -/
def writeTile (hash : List Nat → Nat) (st : WriterState) (tileID : Nat) (payload : List Nat) :
    Except String WriterState :=
  let length := payload.length
  let clustered :=
    if st.tileEntries.length > 0 ∧ tileID < ((st.tileEntries.getLast?).getD ⟨0, 0, 0, 0⟩).tileID
    then false else st.clustered
  let hsh := hash payload
  match st.hashToOffset.lookup hsh with
  | some offset =>
    match st.tileEntries.getLast? with
    | none => .error "TypeError: Cannot read properties of undefined (reading tileID)"
    | some last =>
      if tileID = last.tileID + last.runLength ∧ last.offset = offset then
        .error "TypeError: Cannot read properties of undefined (reading runLength)"
      else
        .ok { st with
              tileEntries := st.tileEntries ++ [⟨tileID, offset, length, 1⟩]
              clustered := clustered
              addressedTiles := st.addressedTiles + 1 }
  | none =>
    .ok { st with
          tileEntries := st.tileEntries ++ [⟨tileID, st.offset, length, 1⟩]
          hashToOffset := st.hashToOffset ++ [(hsh, st.offset)]
          fileBytes := st.fileBytes ++ payload
          offset := st.offset + length
          clustered := clustered
          addressedTiles := st.addressedTiles + 1 }

/-! ## The directory LRU cache (`DirCache`) -/

/-- `Map.has`. -/
def mapHas (m : List (Nat × List Entry)) (k : Nat) : Bool :=
  (m.lookup k).isSome

/-- `Map.get`. -/
def mapGet (m : List (Nat × List Entry)) (k : Nat) : Option (List Entry) :=
  m.lookup k

/-- `Map.set`: update in place when the key exists, append otherwise. -/
def mapSet (m : List (Nat × List Entry)) (k : Nat) (v : List Entry) : List (Nat × List Entry) :=
  if (m.lookup k).isSome then m.map (fun kv => if kv.1 = k then (k, v) else kv)
  else m ++ [(k, v)]

/-- `Map.delete`. -/
def mapDelete (m : List (Nat × List Entry)) (k : Nat) : List (Nat × List Entry) :=
  m.filter (fun kv => kv.1 ≠ k)

/-- JavaScript `Array.indexOf`: first occurrence or `-1`. -/
def jsIndexOf (l : List Nat) (k : Nat) : Int :=
  if k ∈ l then (l.indexOf k : Int) else -1

/-- `order.splice(i, 1)`: remove one element at `i`; a negative `i` counts from
the end (the source only produces `-1`, which removes the last element). -/
def spliceOne (l : List Nat) (i : Int) : List Nat :=
  if i < 0 then l.dropLast else l.take i.toNat ++ l.drop (i.toNat + 1)

/-- `DirCache`: the underlying `Map` as an association list plus the recency
`order` array (most recent first). -/
structure DirCache where
  maxSize : Nat
  entries : List (Nat × List Entry)
  order : List Nat
  deriving Repr, DecidableEq

def emptyCache (maxSize : Nat) : DirCache :=
  ⟨maxSize, [], []⟩

/-- The `while (this.order.length > this.maxSize) this.delete(this.order.pop())`
eviction loop of `DirCache.set`; `this.delete` only touches the `Map`. -/
def evict (maxSize : Nat) (m : List (Nat × List Entry)) (order : List Nat) :
    List (Nat × List Entry) × List Nat :=
  if _h : order.length > maxSize then
    match order.getLast? with
    | none => (m, order)
    | some k => evict maxSize (mapDelete m k) order.dropLast
  else (m, order)
termination_by order.length
decreasing_by simp [List.length_dropLast]; omega

/-- `DirCache.set`. -/
def cacheSet (c : DirCache) (key : Nat) (dir : List Entry) : DirCache :=
  let order1 :=
    if mapHas c.entries key then spliceOne c.order (jsIndexOf c.order key) else c.order
  let order2 := key :: order1
  let md := evict c.maxSize c.entries order2
  { c with entries := mapSet md.1 key dir, order := md.2 }

/-- `DirCache.get`: promote a present key to the front of `order`. -/
def cacheGet (c : DirCache) (key : Nat) : Option (List Entry) × DirCache :=
  if mapHas c.entries key then
    (mapGet c.entries key, { c with order := key :: spliceOne c.order (jsIndexOf c.order key) })
  else (mapGet c.entries key, c)

/-- `DirCache.delete`: `return super.delete(key)` — the `Map` entry goes, the
`order` array is left alone. -/
def cacheDelete (c : DirCache) (key : Nat) : Bool × DirCache :=
  (mapHas c.entries key, { c with entries := mapDelete c.entries key })

/-- Proof-side: a sequence of `set` calls. -/
def foldSet (c : DirCache) (kvs : List (Nat × List Entry)) : DirCache :=
  kvs.foldl (fun acc kv => cacheSet acc kv.1 kv.2) c

/-! ## 64-bit header fields (`getUint64` / `setUint64`) -/

/-- `DataView.getUint32(o, true)` over the byte-list model. -/
def getUint32 (dv : List Nat) (o : Nat) : Nat :=
  getByte dv o + getByte dv (o + 1) * 256 + getByte dv (o + 2) * 65536 +
    getByte dv (o + 3) * 16777216

/-- `DataView.setUint32(o, v, true)`: store `v mod 2^32` little-endian. -/
def setUint32 (dv : List Nat) (o v : Nat) : List Nat :=
  let w := v % 4294967296
  setByte (setByte (setByte (setByte dv o (w % 256)) (o + 1) (w / 256 % 256))
    (o + 2) (w / 65536 % 256)) (o + 3) (w / 16777216 % 256)

/-- `getUint64`: `wh * 2^32 + wl` from the two halves. -/
def getUint64 (dv : List Nat) (o : Nat) : Nat :=
  getUint32 dv (o + 4) * 4294967296 + getUint32 dv o

/-- `setUint64`: `wl = value >>> 0` and `wh = Math.floor(value / 2^32)` (exact
for the 53-bit-safe integers used here). -/
def setUint64 (dv : List Nat) (o value : Nat) : List Nat :=
  setUint32 (setUint32 dv o (value % 4294967296)) (o + 4) (value / 4294967296)

/-! ## Helper lemmas about buffers and bit arithmetic -/

theorem set_at_length (l : List Nat) (b v : Nat) : (l ++ [b]).set l.length v = l ++ [v] := by
  induction l with
  | nil => rfl
  | cons a t ih => simpa [List.set] using ih

theorem setByte_append (l : List Nat) (v : Nat) : setByte l l.length v = l ++ [v] := by
  unfold setByte
  simp only [Nat.add_sub_cancel_left, List.replicate_one]
  exact set_at_length l 0 v

theorem setByte_last (l : List Nat) (b v : Nat) : setByte (l ++ [b]) l.length v = l ++ [v] := by
  unfold setByte
  have h : l.length + 1 - (l ++ [b]).length = 0 := by simp
  rw [h]
  simp only [List.replicate_zero, List.append_nil]
  exact set_at_length l b v

theorem getByte_last (l : List Nat) (b : Nat) : getByte (l ++ [b]) l.length = b := by
  simp [getByte, List.getD_append_right]

theorem writeByte_spec (l : List Nat) (n v : Nat) (h : n = l.length) :
    writeByte ⟨l, n⟩ v = ⟨l ++ [v], n + 1⟩ := by
  subst h
  simp [writeByte, setByte_append]

theorem getByte_at (pre mid rest : List Nat) (i : Nat) (h : i < mid.length) :
    getByte (pre ++ (mid ++ rest)) (pre.length + i) = mid.getD i 0 := by
  unfold getByte
  rw [List.getD_append_right _ _ _ _ (by omega), Nat.add_sub_cancel_left,
    List.getD_append _ _ _ _ h]

theorem and_127 (x : Nat) : x &&& 127 = x % 128 := by
  have h := Nat.and_pow_two_sub_one_eq_mod x 7
  norm_num at h
  exact h

theorem and_15 (x : Nat) : x &&& 15 = x % 16 := by
  have h := Nat.and_pow_two_sub_one_eq_mod x 4
  norm_num at h
  exact h

theorem and_7 (x : Nat) : x &&& 7 = x % 8 := by
  have h := Nat.and_pow_two_sub_one_eq_mod x 3
  norm_num at h
  exact h

theorem and_1 (x : Nat) : x &&& 1 = x % 2 :=
  Nat.and_one_is_mod x

theorem one_and (x : Nat) : 1 &&& x = x % 2 := by
  rw [Nat.land_comm]
  exact and_1 x

theorem shiftRight_div (x k : Nat) : x >>> k = x / 2 ^ k :=
  Nat.shiftRight_eq_div_pow x k

theorem lor_shift (a c k : Nat) (h : a < 2 ^ k) : a ||| c <<< k = a + c * 2 ^ k := by
  rw [Nat.shiftLeft_eq, Nat.lor_comm, Nat.mul_comm c, ← Nat.mul_add_lt_is_or h,
    Nat.add_comm, Nat.mul_comm]

theorem lor_128 (x : Nat) (h : x < 128) : x ||| 128 = x + 128 := by
  have h2 := lor_shift x 1 7 (by omega)
  norm_num at h2
  exact h2

theorem and112_shift (x : Nat) : (x &&& 112) >>> 4 = x / 16 % 8 := by
  have key : (x &&& 112) >>> 4 = (x >>> 4) &&& 7 := by
    apply Nat.eq_of_testBit_eq
    intro i
    rw [show (112 : Nat) = 7 <<< 4 from rfl]
    simp only [Nat.testBit_shiftRight, Nat.testBit_land, Nat.testBit_shiftLeft]
    have h4 : 4 + i - 4 = i := by omega
    simp [h4]
  rw [key, shiftRight_div, and_7]
  norm_num

theorem grp_lt (v k : Nat) : grp v k < 128 :=
  Nat.mod_lt _ (by omega)

/-- Reading back the canonical encoding from the middle of any buffer returns
the encoded value and advances past exactly the encoded bytes. -/
theorem readVarint_encBytes (v : Nat) (hv : v < 18446744073709551616)
    (pre rest : List Nat) :
    readVarint ⟨pre ++ (encBytes v ++ rest), pre.length⟩ =
      .ok (v, ⟨pre ++ (encBytes v ++ rest), pre.length + (encBytes v).length⟩) := by
  by_cases c1 : v < 128
  · have hb : encBytes v = [v % 128] := by
      rw [encBytes, if_pos c1]
      simp [grp]
    rw [hb]
    have g0 : getByte (pre ++ ([v % 128] ++ rest)) pre.length = v % 128 := by
      simpa using getByte_at pre [v % 128] rest 0 (by simp)
    simp only [readVarint, g0]
    rw [if_pos (by omega)]
    simp only [and_127, List.length_cons, List.length_nil]
    congr 2
    omega
  · by_cases c2 : v < 16384
    · have hb : encBytes v = [v % 128 + 128, v / 128 % 128] := by
        rw [encBytes, if_neg c1, if_pos c2]
        simp [grp]
      rw [hb]
      have g0 : getByte (pre ++ ([v % 128 + 128, v / 128 % 128] ++ rest)) pre.length
          = v % 128 + 128 := by
        simpa using getByte_at pre [v % 128 + 128, v / 128 % 128] rest 0 (by simp)
      have g1 : getByte (pre ++ ([v % 128 + 128, v / 128 % 128] ++ rest)) (pre.length + 1)
          = v / 128 % 128 := by
        simpa using getByte_at pre [v % 128 + 128, v / 128 % 128] rest 1 (by simp)
      simp only [readVarint, g0, g1]
      rw [if_neg (by omega), if_pos (by omega)]
      simp only [and_127]
      rw [lor_shift _ _ 7 (by omega)]
      simp only [List.length_cons, List.length_nil]
      congr 2
      omega
    · by_cases c3 : v < 2097152
      · have hb : encBytes v = [v % 128 + 128, v / 128 % 128 + 128, v / 16384 % 128] := by
          rw [encBytes, if_neg c1, if_neg c2, if_pos c3]
          simp only [grp]
          norm_num
        rw [hb]
        set L := [v % 128 + 128, v / 128 % 128 + 128, v / 16384 % 128] with hL
        have g0 : getByte (pre ++ (L ++ rest)) pre.length = v % 128 + 128 := by
          simpa [hL] using getByte_at pre L rest 0 (by simp [hL])
        have g1 : getByte (pre ++ (L ++ rest)) (pre.length + 1) = v / 128 % 128 + 128 := by
          simpa [hL] using getByte_at pre L rest 1 (by simp [hL])
        have g2 : getByte (pre ++ (L ++ rest)) (pre.length + 2) = v / 16384 % 128 := by
          simpa [hL] using getByte_at pre L rest 2 (by simp [hL])
        simp only [readVarint, g0, g1, g2]
        rw [if_neg (by omega), if_neg (by omega), if_pos (by omega)]
        simp only [and_127]
        rw [lor_shift _ _ 7 (by omega), lor_shift _ _ 14 (by omega)]
        simp only [hL, List.length_cons, List.length_nil]
        congr 2
        omega
      · by_cases c4 : v < 268435456
        · have hb : encBytes v =
              [v % 128 + 128, v / 128 % 128 + 128, v / 16384 % 128 + 128,
               v / 2097152 % 128] := by
            rw [encBytes, if_neg c1, if_neg c2, if_neg c3, if_pos c4]
            simp only [grp]
            norm_num
          rw [hb]
          set L := [v % 128 + 128, v / 128 % 128 + 128, v / 16384 % 128 + 128,
            v / 2097152 % 128] with hL
          have g0 : getByte (pre ++ (L ++ rest)) pre.length = v % 128 + 128 := by
            simpa [hL] using getByte_at pre L rest 0 (by simp [hL])
          have g1 : getByte (pre ++ (L ++ rest)) (pre.length + 1) = v / 128 % 128 + 128 := by
            simpa [hL] using getByte_at pre L rest 1 (by simp [hL])
          have g2 : getByte (pre ++ (L ++ rest)) (pre.length + 2) = v / 16384 % 128 + 128 := by
            simpa [hL] using getByte_at pre L rest 2 (by simp [hL])
          have g3 : getByte (pre ++ (L ++ rest)) (pre.length + 3) = v / 2097152 % 128 := by
            simpa [hL] using getByte_at pre L rest 3 (by simp [hL])
          simp only [readVarint, g0, g1, g2, g3]
          rw [if_neg (by omega), if_neg (by omega), if_neg (by omega)]
          rw [if_pos (by omega)]
          simp only [and_127]
          rw [lor_shift _ _ 7 (by omega), lor_shift _ _ 14 (by omega),
            lor_shift _ _ 21 (by omega)]
          simp only [hL, List.length_cons, List.length_nil]
          congr 2
          omega
        · -- the five- to ten-byte encodings all go through `readVarintRemainder`
          by_cases c5 : v < 34359738368
          · have hb : encBytes v =
                [v % 128 + 128, v / 128 % 128 + 128, v / 16384 % 128 + 128,
                 v / 2097152 % 128 + 128, v / 268435456 % 128] := by
              rw [encBytes, if_neg c1, if_neg c2, if_neg c3, if_neg c4, if_pos c5]
              simp only [grp]
              norm_num
            rw [hb]
            set L := [v % 128 + 128, v / 128 % 128 + 128, v / 16384 % 128 + 128,
              v / 2097152 % 128 + 128, v / 268435456 % 128] with hL
            have g0 : getByte (pre ++ (L ++ rest)) pre.length = v % 128 + 128 := by
              simpa [hL] using getByte_at pre L rest 0 (by simp [hL])
            have g1 : getByte (pre ++ (L ++ rest)) (pre.length + 1) = v / 128 % 128 + 128 := by
              simpa [hL] using getByte_at pre L rest 1 (by simp [hL])
            have g2 : getByte (pre ++ (L ++ rest)) (pre.length + 2)
                = v / 16384 % 128 + 128 := by
              simpa [hL] using getByte_at pre L rest 2 (by simp [hL])
            have g3 : getByte (pre ++ (L ++ rest)) (pre.length + 3)
                = v / 2097152 % 128 + 128 := by
              simpa [hL] using getByte_at pre L rest 3 (by simp [hL])
            have g4 : getByte (pre ++ (L ++ rest)) (pre.length + 4)
                = v / 268435456 % 128 := by
              simpa [hL] using getByte_at pre L rest 4 (by simp [hL])
            simp only [readVarint, readVarintRemainder, g0, g1, g2, g3, g4]
            rw [if_neg (by omega), if_neg (by omega), if_neg (by omega)]
            rw [if_neg (by omega), if_pos (by omega)]
            simp only [and_127, and_15, and112_shift, toNum]
            rw [lor_shift _ _ 7 (by omega), lor_shift _ _ 14 (by omega),
              lor_shift _ _ 21 (by omega), lor_shift _ _ 28 (by omega)]
            simp only [hL, List.length_cons, List.length_nil]
            congr 2
            omega
          · by_cases c6 : v < 4398046511104
            · have hb : encBytes v =
                  [v % 128 + 128, v / 128 % 128 + 128, v / 16384 % 128 + 128,
                   v / 2097152 % 128 + 128, v / 268435456 % 128 + 128,
                   v / 34359738368 % 128] := by
                rw [encBytes, if_neg c1, if_neg c2, if_neg c3, if_neg c4, if_neg c5, if_pos c6]
                simp only [grp]
                norm_num
              rw [hb]
              set L := [v % 128 + 128, v / 128 % 128 + 128, v / 16384 % 128 + 128,
                v / 2097152 % 128 + 128, v / 268435456 % 128 + 128,
                v / 34359738368 % 128] with hL
              have g0 : getByte (pre ++ (L ++ rest)) pre.length = v % 128 + 128 := by
                simpa [hL] using getByte_at pre L rest 0 (by simp [hL])
              have g1 : getByte (pre ++ (L ++ rest)) (pre.length + 1)
                  = v / 128 % 128 + 128 := by
                simpa [hL] using getByte_at pre L rest 1 (by simp [hL])
              have g2 : getByte (pre ++ (L ++ rest)) (pre.length + 2)
                  = v / 16384 % 128 + 128 := by
                simpa [hL] using getByte_at pre L rest 2 (by simp [hL])
              have g3 : getByte (pre ++ (L ++ rest)) (pre.length + 3)
                  = v / 2097152 % 128 + 128 := by
                simpa [hL] using getByte_at pre L rest 3 (by simp [hL])
              have g4 : getByte (pre ++ (L ++ rest)) (pre.length + 4)
                  = v / 268435456 % 128 + 128 := by
                simpa [hL] using getByte_at pre L rest 4 (by simp [hL])
              have g5 : getByte (pre ++ (L ++ rest)) (pre.length + 4 + 1)
                  = v / 34359738368 % 128 := by
                have h5 := getByte_at pre L rest 5 (by simp [hL])
                have e : pre.length + 4 + 1 = pre.length + 5 := by omega
                rw [e]
                simpa [hL] using h5
              simp only [readVarint, readVarintRemainder, g0, g1, g2, g3, g4, g5]
              rw [if_neg (by omega), if_neg (by omega), if_neg (by omega)]
              rw [if_neg (by omega), if_neg (by omega), if_pos (by omega)]
              simp only [and_127, and_15, and112_shift, toNum]
              rw [lor_shift _ _ 7 (by omega), lor_shift _ _ 14 (by omega),
                lor_shift _ _ 21 (by omega), lor_shift _ _ 28 (by omega),
                lor_shift _ _ 3 (by omega)]
              simp only [hL, List.length_cons, List.length_nil]
              congr 2
              omega
            · by_cases c7 : v < 562949953421312
              · have hb : encBytes v =
                    [v % 128 + 128, v / 128 % 128 + 128, v / 16384 % 128 + 128,
                     v / 2097152 % 128 + 128, v / 268435456 % 128 + 128,
                     v / 34359738368 % 128 + 128, v / 4398046511104 % 128] := by
                  rw [encBytes, if_neg c1, if_neg c2, if_neg c3, if_neg c4, if_neg c5,
                    if_neg c6, if_pos c7]
                  simp only [grp]
                  norm_num
                rw [hb]
                set L := [v % 128 + 128, v / 128 % 128 + 128, v / 16384 % 128 + 128,
                  v / 2097152 % 128 + 128, v / 268435456 % 128 + 128,
                  v / 34359738368 % 128 + 128, v / 4398046511104 % 128] with hL
                have g0 : getByte (pre ++ (L ++ rest)) pre.length = v % 128 + 128 := by
                  simpa [hL] using getByte_at pre L rest 0 (by simp [hL])
                have g1 : getByte (pre ++ (L ++ rest)) (pre.length + 1)
                    = v / 128 % 128 + 128 := by
                  simpa [hL] using getByte_at pre L rest 1 (by simp [hL])
                have g2 : getByte (pre ++ (L ++ rest)) (pre.length + 2)
                    = v / 16384 % 128 + 128 := by
                  simpa [hL] using getByte_at pre L rest 2 (by simp [hL])
                have g3 : getByte (pre ++ (L ++ rest)) (pre.length + 3)
                    = v / 2097152 % 128 + 128 := by
                  simpa [hL] using getByte_at pre L rest 3 (by simp [hL])
                have g4 : getByte (pre ++ (L ++ rest)) (pre.length + 4)
                    = v / 268435456 % 128 + 128 := by
                  simpa [hL] using getByte_at pre L rest 4 (by simp [hL])
                have g5 : getByte (pre ++ (L ++ rest)) (pre.length + 4 + 1)
                    = v / 34359738368 % 128 + 128 := by
                  have h5 := getByte_at pre L rest 5 (by simp [hL])
                  have e : pre.length + 4 + 1 = pre.length + 5 := by omega
                  rw [e]
                  simpa [hL] using h5
                have g6 : getByte (pre ++ (L ++ rest)) (pre.length + 4 + 2)
                    = v / 4398046511104 % 128 := by
                  have h6 := getByte_at pre L rest 6 (by simp [hL])
                  have e : pre.length + 4 + 2 = pre.length + 6 := by omega
                  rw [e]
                  simpa [hL] using h6
                simp only [readVarint, readVarintRemainder, g0, g1, g2, g3, g4, g5, g6]
                rw [if_neg (by omega), if_neg (by omega), if_neg (by omega)]
                rw [if_neg (by omega), if_neg (by omega), if_neg (by omega)]
                rw [if_pos (by omega)]
                simp only [and_127, and_15, and112_shift, toNum]
                rw [lor_shift _ _ 7 (by omega), lor_shift _ _ 14 (by omega),
                  lor_shift _ _ 21 (by omega), lor_shift _ _ 28 (by omega),
                  lor_shift _ _ 3 (by omega), lor_shift _ _ 10 (by omega)]
                simp only [hL, List.length_cons, List.length_nil]
                congr 2
                omega
              · by_cases c8 : v < 72057594037927936
                · have hb : encBytes v =
                      [v % 128 + 128, v / 128 % 128 + 128, v / 16384 % 128 + 128,
                       v / 2097152 % 128 + 128, v / 268435456 % 128 + 128,
                       v / 34359738368 % 128 + 128, v / 4398046511104 % 128 + 128,
                       v / 562949953421312 % 128] := by
                    rw [encBytes, if_neg c1, if_neg c2, if_neg c3, if_neg c4, if_neg c5,
                      if_neg c6, if_neg c7, if_pos c8]
                    simp only [grp]
                    norm_num
                  rw [hb]
                  set L := [v % 128 + 128, v / 128 % 128 + 128, v / 16384 % 128 + 128,
                    v / 2097152 % 128 + 128, v / 268435456 % 128 + 128,
                    v / 34359738368 % 128 + 128, v / 4398046511104 % 128 + 128,
                    v / 562949953421312 % 128] with hL
                  have g0 : getByte (pre ++ (L ++ rest)) pre.length = v % 128 + 128 := by
                    simpa [hL] using getByte_at pre L rest 0 (by simp [hL])
                  have g1 : getByte (pre ++ (L ++ rest)) (pre.length + 1)
                      = v / 128 % 128 + 128 := by
                    simpa [hL] using getByte_at pre L rest 1 (by simp [hL])
                  have g2 : getByte (pre ++ (L ++ rest)) (pre.length + 2)
                      = v / 16384 % 128 + 128 := by
                    simpa [hL] using getByte_at pre L rest 2 (by simp [hL])
                  have g3 : getByte (pre ++ (L ++ rest)) (pre.length + 3)
                      = v / 2097152 % 128 + 128 := by
                    simpa [hL] using getByte_at pre L rest 3 (by simp [hL])
                  have g4 : getByte (pre ++ (L ++ rest)) (pre.length + 4)
                      = v / 268435456 % 128 + 128 := by
                    simpa [hL] using getByte_at pre L rest 4 (by simp [hL])
                  have g5 : getByte (pre ++ (L ++ rest)) (pre.length + 4 + 1)
                      = v / 34359738368 % 128 + 128 := by
                    have h5 := getByte_at pre L rest 5 (by simp [hL])
                    have e : pre.length + 4 + 1 = pre.length + 5 := by omega
                    rw [e]
                    simpa [hL] using h5
                  have g6 : getByte (pre ++ (L ++ rest)) (pre.length + 4 + 2)
                      = v / 4398046511104 % 128 + 128 := by
                    have h6 := getByte_at pre L rest 6 (by simp [hL])
                    have e : pre.length + 4 + 2 = pre.length + 6 := by omega
                    rw [e]
                    simpa [hL] using h6
                  have g7 : getByte (pre ++ (L ++ rest)) (pre.length + 4 + 3)
                      = v / 562949953421312 % 128 := by
                    have h7 := getByte_at pre L rest 7 (by simp [hL])
                    have e : pre.length + 4 + 3 = pre.length + 7 := by omega
                    rw [e]
                    simpa [hL] using h7
                  simp only [readVarint, readVarintRemainder, g0, g1, g2, g3, g4, g5, g6, g7]
                  rw [if_neg (by omega), if_neg (by omega), if_neg (by omega)]
                  rw [if_neg (by omega), if_neg (by omega), if_neg (by omega)]
                  rw [if_neg (by omega), if_pos (by omega)]
                  simp only [and_127, and_15, and112_shift, toNum]
                  rw [lor_shift _ _ 7 (by omega), lor_shift _ _ 14 (by omega),
                    lor_shift _ _ 21 (by omega), lor_shift _ _ 28 (by omega),
                    lor_shift _ _ 3 (by omega), lor_shift _ _ 10 (by omega),
                    lor_shift _ _ 17 (by omega)]
                  simp only [hL, List.length_cons, List.length_nil]
                  congr 2
                  omega
                · by_cases c9 : v < 9223372036854775808
                  · have hb : encBytes v =
                        [v % 128 + 128, v / 128 % 128 + 128, v / 16384 % 128 + 128,
                         v / 2097152 % 128 + 128, v / 268435456 % 128 + 128,
                         v / 34359738368 % 128 + 128, v / 4398046511104 % 128 + 128,
                         v / 562949953421312 % 128 + 128, v / 72057594037927936 % 128] := by
                      rw [encBytes, if_neg c1, if_neg c2, if_neg c3, if_neg c4, if_neg c5,
                        if_neg c6, if_neg c7, if_neg c8, if_pos c9]
                      simp only [grp]
                      norm_num
                    rw [hb]
                    set L := [v % 128 + 128, v / 128 % 128 + 128, v / 16384 % 128 + 128,
                      v / 2097152 % 128 + 128, v / 268435456 % 128 + 128,
                      v / 34359738368 % 128 + 128, v / 4398046511104 % 128 + 128,
                      v / 562949953421312 % 128 + 128, v / 72057594037927936 % 128] with hL
                    have g0 : getByte (pre ++ (L ++ rest)) pre.length = v % 128 + 128 := by
                      simpa [hL] using getByte_at pre L rest 0 (by simp [hL])
                    have g1 : getByte (pre ++ (L ++ rest)) (pre.length + 1)
                        = v / 128 % 128 + 128 := by
                      simpa [hL] using getByte_at pre L rest 1 (by simp [hL])
                    have g2 : getByte (pre ++ (L ++ rest)) (pre.length + 2)
                        = v / 16384 % 128 + 128 := by
                      simpa [hL] using getByte_at pre L rest 2 (by simp [hL])
                    have g3 : getByte (pre ++ (L ++ rest)) (pre.length + 3)
                        = v / 2097152 % 128 + 128 := by
                      simpa [hL] using getByte_at pre L rest 3 (by simp [hL])
                    have g4 : getByte (pre ++ (L ++ rest)) (pre.length + 4)
                        = v / 268435456 % 128 + 128 := by
                      simpa [hL] using getByte_at pre L rest 4 (by simp [hL])
                    have g5 : getByte (pre ++ (L ++ rest)) (pre.length + 4 + 1)
                        = v / 34359738368 % 128 + 128 := by
                      have h5 := getByte_at pre L rest 5 (by simp [hL])
                      have e : pre.length + 4 + 1 = pre.length + 5 := by omega
                      rw [e]
                      simpa [hL] using h5
                    have g6 : getByte (pre ++ (L ++ rest)) (pre.length + 4 + 2)
                        = v / 4398046511104 % 128 + 128 := by
                      have h6 := getByte_at pre L rest 6 (by simp [hL])
                      have e : pre.length + 4 + 2 = pre.length + 6 := by omega
                      rw [e]
                      simpa [hL] using h6
                    have g7 : getByte (pre ++ (L ++ rest)) (pre.length + 4 + 3)
                        = v / 562949953421312 % 128 + 128 := by
                      have h7 := getByte_at pre L rest 7 (by simp [hL])
                      have e : pre.length + 4 + 3 = pre.length + 7 := by omega
                      rw [e]
                      simpa [hL] using h7
                    have g8 : getByte (pre ++ (L ++ rest)) (pre.length + 4 + 4)
                        = v / 72057594037927936 % 128 := by
                      have h8 := getByte_at pre L rest 8 (by simp [hL])
                      have e : pre.length + 4 + 4 = pre.length + 8 := by omega
                      rw [e]
                      simpa [hL] using h8
                    simp only [readVarint, readVarintRemainder, g0, g1, g2, g3, g4, g5, g6,
                      g7, g8]
                    rw [if_neg (by omega), if_neg (by omega), if_neg (by omega)]
                    rw [if_neg (by omega), if_neg (by omega), if_neg (by omega)]
                    rw [if_neg (by omega), if_neg (by omega), if_pos (by omega)]
                    simp only [and_127, and_15, and112_shift, toNum]
                    rw [lor_shift _ _ 7 (by omega), lor_shift _ _ 14 (by omega),
                      lor_shift _ _ 21 (by omega), lor_shift _ _ 28 (by omega),
                      lor_shift _ _ 3 (by omega), lor_shift _ _ 10 (by omega),
                      lor_shift _ _ 17 (by omega), lor_shift _ _ 24 (by omega)]
                    simp only [hL, List.length_cons, List.length_nil]
                    congr 2
                    omega
                  · have hb : encBytes v =
                        [v % 128 + 128, v / 128 % 128 + 128, v / 16384 % 128 + 128,
                         v / 2097152 % 128 + 128, v / 268435456 % 128 + 128,
                         v / 34359738368 % 128 + 128, v / 4398046511104 % 128 + 128,
                         v / 562949953421312 % 128 + 128, v / 72057594037927936 % 128 + 128,
                         v / 9223372036854775808 % 128] := by
                      rw [encBytes, if_neg c1, if_neg c2, if_neg c3, if_neg c4, if_neg c5,
                        if_neg c6, if_neg c7, if_neg c8, if_neg c9]
                      simp only [grp]
                      norm_num
                    rw [hb]
                    set L := [v % 128 + 128, v / 128 % 128 + 128, v / 16384 % 128 + 128,
                      v / 2097152 % 128 + 128, v / 268435456 % 128 + 128,
                      v / 34359738368 % 128 + 128, v / 4398046511104 % 128 + 128,
                      v / 562949953421312 % 128 + 128, v / 72057594037927936 % 128 + 128,
                      v / 9223372036854775808 % 128] with hL
                    have g0 : getByte (pre ++ (L ++ rest)) pre.length = v % 128 + 128 := by
                      simpa [hL] using getByte_at pre L rest 0 (by simp [hL])
                    have g1 : getByte (pre ++ (L ++ rest)) (pre.length + 1)
                        = v / 128 % 128 + 128 := by
                      simpa [hL] using getByte_at pre L rest 1 (by simp [hL])
                    have g2 : getByte (pre ++ (L ++ rest)) (pre.length + 2)
                        = v / 16384 % 128 + 128 := by
                      simpa [hL] using getByte_at pre L rest 2 (by simp [hL])
                    have g3 : getByte (pre ++ (L ++ rest)) (pre.length + 3)
                        = v / 2097152 % 128 + 128 := by
                      simpa [hL] using getByte_at pre L rest 3 (by simp [hL])
                    have g4 : getByte (pre ++ (L ++ rest)) (pre.length + 4)
                        = v / 268435456 % 128 + 128 := by
                      simpa [hL] using getByte_at pre L rest 4 (by simp [hL])
                    have g5 : getByte (pre ++ (L ++ rest)) (pre.length + 4 + 1)
                        = v / 34359738368 % 128 + 128 := by
                      have h5 := getByte_at pre L rest 5 (by simp [hL])
                      have e : pre.length + 4 + 1 = pre.length + 5 := by omega
                      rw [e]
                      simpa [hL] using h5
                    have g6 : getByte (pre ++ (L ++ rest)) (pre.length + 4 + 2)
                        = v / 4398046511104 % 128 + 128 := by
                      have h6 := getByte_at pre L rest 6 (by simp [hL])
                      have e : pre.length + 4 + 2 = pre.length + 6 := by omega
                      rw [e]
                      simpa [hL] using h6
                    have g7 : getByte (pre ++ (L ++ rest)) (pre.length + 4 + 3)
                        = v / 562949953421312 % 128 + 128 := by
                      have h7 := getByte_at pre L rest 7 (by simp [hL])
                      have e : pre.length + 4 + 3 = pre.length + 7 := by omega
                      rw [e]
                      simpa [hL] using h7
                    have g8 : getByte (pre ++ (L ++ rest)) (pre.length + 4 + 4)
                        = v / 72057594037927936 % 128 + 128 := by
                      have h8 := getByte_at pre L rest 8 (by simp [hL])
                      have e : pre.length + 4 + 4 = pre.length + 8 := by omega
                      rw [e]
                      simpa [hL] using h8
                    have g9 : getByte (pre ++ (L ++ rest)) (pre.length + 4 + 5)
                        = v / 9223372036854775808 % 128 := by
                      have h9 := getByte_at pre L rest 9 (by simp [hL])
                      have e : pre.length + 4 + 5 = pre.length + 9 := by omega
                      rw [e]
                      simpa [hL] using h9
                    simp only [readVarint, readVarintRemainder, g0, g1, g2, g3, g4, g5, g6,
                      g7, g8, g9]
                    rw [if_neg (by omega), if_neg (by omega), if_neg (by omega)]
                    rw [if_neg (by omega), if_neg (by omega), if_neg (by omega)]
                    rw [if_neg (by omega), if_neg (by omega), if_neg (by omega)]
                    rw [if_pos (by omega)]
                    simp only [and_127, and_15, and_1, and112_shift, toNum]
                    rw [lor_shift _ _ 7 (by omega), lor_shift _ _ 14 (by omega),
                      lor_shift _ _ 21 (by omega), lor_shift _ _ 28 (by omega),
                      lor_shift _ _ 3 (by omega), lor_shift _ _ 10 (by omega),
                      lor_shift _ _ 17 (by omega), lor_shift _ _ 24 (by omega),
                      lor_shift _ _ 31 (by omega)]
                    simp only [hL, List.length_cons, List.length_nil]
                    congr 2
                    omega

theorem lor_mul (a c k : Nat) (h : a < 2 ^ k) : a ||| c * 2 ^ k = a + c * 2 ^ k := by
  rw [Nat.lor_comm, Nat.mul_comm c, ← Nat.mul_add_lt_is_or h, Nat.add_comm, Nat.mul_comm]

theorem setByte_append_of (l : List Nat) (n v : Nat) (h : n = l.length) :
    setByte l n v = l ++ [v] := by
  subst h
  exact setByte_append l v

theorem setByte_last_of (l : List Nat) (n b v : Nat) (h : n = l.length) :
    setByte (l ++ [b]) n v = l ++ [v] := by
  subst h
  exact setByte_last l b v

theorem getByte_last_of (l : List Nat) (n b : Nat) (h : n = l.length) :
    getByte (l ++ [b]) n = b := by
  subst h
  exact getByte_last l b

theorem writeBigVarintLow_spec (low high : Nat) (l : List Nat) :
    writeBigVarintLow low high ⟨l, l.length⟩ =
      ⟨l ++ [(low &&& 127) ||| 128, ((low >>> 7) &&& 127) ||| 128,
        ((low >>> 7 >>> 7) &&& 127) ||| 128, ((low >>> 7 >>> 7 >>> 7) &&& 127) ||| 128,
        (low >>> 7 >>> 7 >>> 7 >>> 7) &&& 127], l.length + 4⟩ := by
  simp [writeBigVarintLow, writeByte, setByte_append_of]

theorem writeBigVarintHigh_spec0 (high : Nat) (l : List Nat) (c : Nat)
    (h : high >>> 3 = 0) :
    writeBigVarintHigh high ⟨l ++ [c], l.length⟩ =
      ⟨l ++ [c ||| (high &&& 7) <<< 4], l.length + 1⟩ := by
  simp [writeBigVarintHigh, writeByte, setByte_append_of, setByte_last_of,
    getByte_last_of, h]

theorem writeBigVarintHigh_spec1 (high : Nat) (l : List Nat) (c : Nat)
    (h : ¬ high >>> 3 = 0) (h1 : high >>> 3 >>> 7 = 0) :
    writeBigVarintHigh high ⟨l ++ [c], l.length⟩ =
      ⟨l ++ [c ||| ((high &&& 7) <<< 4 ||| 128), (high >>> 3) &&& 127], l.length + 2⟩ := by
  simp [writeBigVarintHigh, writeByte, setByte_append_of, setByte_last_of,
    getByte_last_of, h, h1]

theorem writeBigVarintHigh_spec2 (high : Nat) (l : List Nat) (c : Nat)
    (h : ¬ high >>> 3 = 0) (h1 : ¬ high >>> 3 >>> 7 = 0) (h2 : high >>> 3 >>> 7 >>> 7 = 0) :
    writeBigVarintHigh high ⟨l ++ [c], l.length⟩ =
      ⟨l ++ [c ||| ((high &&& 7) <<< 4 ||| 128), ((high >>> 3) &&& 127) ||| 128,
        (high >>> 3 >>> 7) &&& 127], l.length + 3⟩ := by
  simp [writeBigVarintHigh, writeByte, setByte_append_of, setByte_last_of,
    getByte_last_of, h, h1, h2, List.append_assoc]

theorem writeBigVarintHigh_spec3 (high : Nat) (l : List Nat) (c : Nat)
    (h : ¬ high >>> 3 = 0) (h1 : ¬ high >>> 3 >>> 7 = 0)
    (h2 : ¬ high >>> 3 >>> 7 >>> 7 = 0) (h3 : high >>> 3 >>> 7 >>> 7 >>> 7 = 0) :
    writeBigVarintHigh high ⟨l ++ [c], l.length⟩ =
      ⟨l ++ [c ||| ((high &&& 7) <<< 4 ||| 128), ((high >>> 3) &&& 127) ||| 128,
        ((high >>> 3 >>> 7) &&& 127) ||| 128, (high >>> 3 >>> 7 >>> 7) &&& 127],
       l.length + 4⟩ := by
  simp [writeBigVarintHigh, writeByte, setByte_append_of, setByte_last_of,
    getByte_last_of, h, h1, h2, h3, List.append_assoc]

theorem writeBigVarintHigh_spec4 (high : Nat) (l : List Nat) (c : Nat)
    (h : ¬ high >>> 3 = 0) (h1 : ¬ high >>> 3 >>> 7 = 0)
    (h2 : ¬ high >>> 3 >>> 7 >>> 7 = 0) (h3 : ¬ high >>> 3 >>> 7 >>> 7 >>> 7 = 0)
    (h4 : high >>> 3 >>> 7 >>> 7 >>> 7 >>> 7 = 0) :
    writeBigVarintHigh high ⟨l ++ [c], l.length⟩ =
      ⟨l ++ [c ||| ((high &&& 7) <<< 4 ||| 128), ((high >>> 3) &&& 127) ||| 128,
        ((high >>> 3 >>> 7) &&& 127) ||| 128, ((high >>> 3 >>> 7 >>> 7) &&& 127) ||| 128,
        (high >>> 3 >>> 7 >>> 7 >>> 7) &&& 127], l.length + 5⟩ := by
  simp [writeBigVarintHigh, writeByte, setByte_append_of, setByte_last_of,
    getByte_last_of, h, h1, h2, h3, h4, List.append_assoc]

theorem writeBigVarintHigh_spec5 (high : Nat) (l : List Nat) (c : Nat)
    (h : ¬ high >>> 3 = 0) (h1 : ¬ high >>> 3 >>> 7 = 0)
    (h2 : ¬ high >>> 3 >>> 7 >>> 7 = 0) (h3 : ¬ high >>> 3 >>> 7 >>> 7 >>> 7 = 0)
    (h4 : ¬ high >>> 3 >>> 7 >>> 7 >>> 7 >>> 7 = 0) :
    writeBigVarintHigh high ⟨l ++ [c], l.length⟩ =
      ⟨l ++ [c ||| ((high &&& 7) <<< 4 ||| 128), ((high >>> 3) &&& 127) ||| 128,
        ((high >>> 3 >>> 7) &&& 127) ||| 128, ((high >>> 3 >>> 7 >>> 7) &&& 127) ||| 128,
        ((high >>> 3 >>> 7 >>> 7 >>> 7) &&& 127) ||| 128,
        (high >>> 3 >>> 7 >>> 7 >>> 7 >>> 7) &&& 127], l.length + 6⟩ := by
  simp [writeBigVarintHigh, writeByte, setByte_append_of, setByte_last_of,
    getByte_last_of, h, h1, h2, h3, h4, List.append_assoc]

theorem mod128_lor_128 (x : Nat) : x % 128 ||| 128 = x % 128 + 128 :=
  lor_128 _ (by omega)

theorem lor_mul16 (a c : Nat) (h : a < 16) : a ||| c * 16 = a + c * 16 := by
  have h2 := lor_mul a c 4 (by simpa using h)
  simpa using h2

theorem byte5_merge0 (x m : Nat) (hx : x < 16) : x ||| m * 16 = x + m * 16 :=
  lor_mul16 _ _ hx

theorem byte5_merge (x m : Nat) (hx : x < 16) (hm : m < 8) :
    x ||| (m * 16 ||| 128) = x + m * 16 + 128 := by
  rw [lor_128 _ (by omega)]
  have e : m * 16 + 128 = (m + 8) * 16 := by ring
  rw [e, lor_mul16 _ _ hx]
  ring

/-- `writeVarint` starting at the end of a buffer appends exactly the canonical
byte sequence of `v` and advances the position past it. -/
theorem writeVarint_encBytes (v : Nat) (hv : v < 18446744073709551616) (l : List Nat) :
    writeVarint v ⟨l, l.length⟩ = .ok ⟨l ++ encBytes v, l.length + (encBytes v).length⟩ := by
  by_cases c1 : v < 128
  · have hb : encBytes v = [v % 128] := by
      rw [encBytes, if_pos c1]
      simp [grp]
    have d0 : ¬ v > 268435455 := by omega
    have d1 : v ≤ 127 := by omega
    have d2 : ¬ v > 127 := by omega
    rw [hb]
    simp [writeVarint, writeByte, setByte_append_of, d0, d1, d2, and_127]
  · by_cases c2 : v < 16384
    · have hb : encBytes v = [v % 128 + 128, v / 128 % 128] := by
        rw [encBytes, if_neg c1, if_pos c2]
        simp [grp]
      have d0 : ¬ v > 268435455 := by omega
      have d1 : ¬ v ≤ 127 := by omega
      have d2 : v > 127 := by omega
      have d3 : v / 128 ≤ 127 := by omega
      have d4 : ¬ 127 < v / 128 := by omega
      rw [hb]
      simp [writeVarint, writeByte, setByte_append_of, d0, d1, d2, d3, d4, and_127,
        mod128_lor_128, shiftRight_div]
    · by_cases c3 : v < 2097152
      · have hb : encBytes v = [v % 128 + 128, v / 128 % 128 + 128, v / 16384 % 128] := by
          rw [encBytes, if_neg c1, if_neg c2, if_pos c3]
          simp only [grp]
          norm_num
        have d0 : ¬ v > 268435455 := by omega
        have d1 : ¬ v ≤ 127 := by omega
        have d2 : v > 127 := by omega
        have d3 : ¬ v / 128 ≤ 127 := by omega
        have d4 : 127 < v / 128 := by omega
        have d5 : v / 16384 ≤ 127 := by omega
        have d6 : ¬ 127 < v / 16384 := by omega
        rw [hb]
        simp [writeVarint, writeByte, setByte_append_of, d0, d1, d2, d3, d4, d5, d6,
          and_127, mod128_lor_128, shiftRight_div, Nat.div_div_eq_div_mul]
      · by_cases c4 : v < 268435456
        · have hb : encBytes v =
              [v % 128 + 128, v / 128 % 128 + 128, v / 16384 % 128 + 128,
               v / 2097152 % 128] := by
            rw [encBytes, if_neg c1, if_neg c2, if_neg c3, if_pos c4]
            simp only [grp]
            norm_num
          have d0 : ¬ v > 268435455 := by omega
          have d1 : ¬ v ≤ 127 := by omega
          have d2 : v > 127 := by omega
          have d3 : ¬ v / 128 ≤ 127 := by omega
          have d4 : 127 < v / 128 := by omega
          have d5 : ¬ v / 16384 ≤ 127 := by omega
          have d6 : 127 < v / 16384 := by omega
          rw [hb]
          simp [writeVarint, writeByte, setByte_append_of, d0, d1, d2, d3, d4, d5, d6,
            and_127, mod128_lor_128, shiftRight_div, Nat.div_div_eq_div_mul]
        · -- `writeBigVarint` path: five to ten bytes
          have hbig : v > 268435455 := by omega
          have hfit : ¬ v ≥ 18446744073709551616 := by omega
          by_cases c5 : v < 34359738368
          · have hb : encBytes v =
                [v % 128 + 128, v / 128 % 128 + 128, v / 16384 % 128 + 128,
                 v / 2097152 % 128 + 128, v / 268435456 % 128] := by
              rw [encBytes, if_neg c1, if_neg c2, if_neg c3, if_neg c4, if_pos c5]
              simp only [grp]
              norm_num
            rw [hb]
            simp only [writeVarint, writeBigVarint]
            rw [if_pos hbig, if_neg hfit, writeBigVarintLow_spec]
            rw [show l ++ [((v % 4294967296) &&& 127) ||| 128,
                  (((v % 4294967296) >>> 7) &&& 127) ||| 128,
                  (((v % 4294967296) >>> 7 >>> 7) &&& 127) ||| 128,
                  (((v % 4294967296) >>> 7 >>> 7 >>> 7) &&& 127) ||| 128,
                  ((v % 4294967296) >>> 7 >>> 7 >>> 7 >>> 7) &&& 127] =
                (l ++ [((v % 4294967296) &&& 127) ||| 128,
                  (((v % 4294967296) >>> 7) &&& 127) ||| 128,
                  (((v % 4294967296) >>> 7 >>> 7) &&& 127) ||| 128,
                  (((v % 4294967296) >>> 7 >>> 7 >>> 7) &&& 127) ||| 128]) ++
                  [((v % 4294967296) >>> 7 >>> 7 >>> 7 >>> 7) &&& 127] from by simp,
              show l.length + 4 =
                (l ++ [((v % 4294967296) &&& 127) ||| 128,
                  (((v % 4294967296) >>> 7) &&& 127) ||| 128,
                  (((v % 4294967296) >>> 7 >>> 7) &&& 127) ||| 128,
                  (((v % 4294967296) >>> 7 >>> 7 >>> 7) &&& 127) ||| 128]).length from by simp]
            rw [writeBigVarintHigh_spec0 _ _ _
              (by simp only [shiftRight_div, Nat.div_div_eq_div_mul]; omega)]
            simp only [and_127, and_7, shiftRight_div, Nat.div_div_eq_div_mul,
              Nat.shiftLeft_eq, mod128_lor_128, List.append_assoc, List.cons_append,
              List.nil_append, List.length_append, List.length_cons, List.length_nil]
            norm_num
            rw [byte5_merge0 _ _ (by omega)]
            omega
          · by_cases c6 : v < 4398046511104
            · have hb : encBytes v =
                  [v % 128 + 128, v / 128 % 128 + 128, v / 16384 % 128 + 128,
                   v / 2097152 % 128 + 128, v / 268435456 % 128 + 128,
                   v / 34359738368 % 128] := by
                rw [encBytes, if_neg c1, if_neg c2, if_neg c3, if_neg c4, if_neg c5,
                  if_pos c6]
                simp only [grp]
                norm_num
              rw [hb]
              simp only [writeVarint, writeBigVarint]
              rw [if_pos hbig, if_neg hfit, writeBigVarintLow_spec]
              rw [show l ++ [((v % 4294967296) &&& 127) ||| 128,
                    (((v % 4294967296) >>> 7) &&& 127) ||| 128,
                    (((v % 4294967296) >>> 7 >>> 7) &&& 127) ||| 128,
                    (((v % 4294967296) >>> 7 >>> 7 >>> 7) &&& 127) ||| 128,
                    ((v % 4294967296) >>> 7 >>> 7 >>> 7 >>> 7) &&& 127] =
                  (l ++ [((v % 4294967296) &&& 127) ||| 128,
                    (((v % 4294967296) >>> 7) &&& 127) ||| 128,
                    (((v % 4294967296) >>> 7 >>> 7) &&& 127) ||| 128,
                    (((v % 4294967296) >>> 7 >>> 7 >>> 7) &&& 127) ||| 128]) ++
                    [((v % 4294967296) >>> 7 >>> 7 >>> 7 >>> 7) &&& 127] from by simp,
                show l.length + 4 =
                  (l ++ [((v % 4294967296) &&& 127) ||| 128,
                    (((v % 4294967296) >>> 7) &&& 127) ||| 128,
                    (((v % 4294967296) >>> 7 >>> 7) &&& 127) ||| 128,
                    (((v % 4294967296) >>> 7 >>> 7 >>> 7) &&& 127) ||| 128]).length from by
                  simp]
              rw [writeBigVarintHigh_spec1 _ _ _
                (by simp only [shiftRight_div, Nat.div_div_eq_div_mul]; omega)
                (by simp only [shiftRight_div, Nat.div_div_eq_div_mul]; omega)]
              simp only [and_127, and_7, shiftRight_div, Nat.div_div_eq_div_mul,
                Nat.shiftLeft_eq, mod128_lor_128, List.append_assoc, List.cons_append,
                List.nil_append, List.length_append, List.length_cons, List.length_nil]
              norm_num
              rw [byte5_merge _ _ (by omega) (by omega)]
              omega
            · by_cases c7 : v < 562949953421312
              · have hb : encBytes v =
                    [v % 128 + 128, v / 128 % 128 + 128, v / 16384 % 128 + 128,
                     v / 2097152 % 128 + 128, v / 268435456 % 128 + 128,
                     v / 34359738368 % 128 + 128, v / 4398046511104 % 128] := by
                  rw [encBytes, if_neg c1, if_neg c2, if_neg c3, if_neg c4, if_neg c5,
                    if_neg c6, if_pos c7]
                  simp only [grp]
                  norm_num
                rw [hb]
                simp only [writeVarint, writeBigVarint]
                rw [if_pos hbig, if_neg hfit, writeBigVarintLow_spec]
                rw [show l ++ [((v % 4294967296) &&& 127) ||| 128,
                      (((v % 4294967296) >>> 7) &&& 127) ||| 128,
                      (((v % 4294967296) >>> 7 >>> 7) &&& 127) ||| 128,
                      (((v % 4294967296) >>> 7 >>> 7 >>> 7) &&& 127) ||| 128,
                      ((v % 4294967296) >>> 7 >>> 7 >>> 7 >>> 7) &&& 127] =
                    (l ++ [((v % 4294967296) &&& 127) ||| 128,
                      (((v % 4294967296) >>> 7) &&& 127) ||| 128,
                      (((v % 4294967296) >>> 7 >>> 7) &&& 127) ||| 128,
                      (((v % 4294967296) >>> 7 >>> 7 >>> 7) &&& 127) ||| 128]) ++
                      [((v % 4294967296) >>> 7 >>> 7 >>> 7 >>> 7) &&& 127] from by simp,
                  show l.length + 4 =
                    (l ++ [((v % 4294967296) &&& 127) ||| 128,
                      (((v % 4294967296) >>> 7) &&& 127) ||| 128,
                      (((v % 4294967296) >>> 7 >>> 7) &&& 127) ||| 128,
                      (((v % 4294967296) >>> 7 >>> 7 >>> 7) &&& 127) ||| 128]).length from by
                    simp]
                rw [writeBigVarintHigh_spec2 _ _ _
                  (by simp only [shiftRight_div, Nat.div_div_eq_div_mul]; omega)
                  (by simp only [shiftRight_div, Nat.div_div_eq_div_mul]; omega)
                  (by simp only [shiftRight_div, Nat.div_div_eq_div_mul]; omega)]
                simp only [and_127, and_7, shiftRight_div, Nat.div_div_eq_div_mul,
                  Nat.shiftLeft_eq, mod128_lor_128, List.append_assoc, List.cons_append,
                  List.nil_append, List.length_append, List.length_cons, List.length_nil]
                norm_num
                rw [byte5_merge _ _ (by omega) (by omega)]
                omega
              · by_cases c8 : v < 72057594037927936
                · have hb : encBytes v =
                      [v % 128 + 128, v / 128 % 128 + 128, v / 16384 % 128 + 128,
                       v / 2097152 % 128 + 128, v / 268435456 % 128 + 128,
                       v / 34359738368 % 128 + 128, v / 4398046511104 % 128 + 128,
                       v / 562949953421312 % 128] := by
                    rw [encBytes, if_neg c1, if_neg c2, if_neg c3, if_neg c4, if_neg c5,
                      if_neg c6, if_neg c7, if_pos c8]
                    simp only [grp]
                    norm_num
                  rw [hb]
                  simp only [writeVarint, writeBigVarint]
                  rw [if_pos hbig, if_neg hfit, writeBigVarintLow_spec]
                  rw [show l ++ [((v % 4294967296) &&& 127) ||| 128,
                        (((v % 4294967296) >>> 7) &&& 127) ||| 128,
                        (((v % 4294967296) >>> 7 >>> 7) &&& 127) ||| 128,
                        (((v % 4294967296) >>> 7 >>> 7 >>> 7) &&& 127) ||| 128,
                        ((v % 4294967296) >>> 7 >>> 7 >>> 7 >>> 7) &&& 127] =
                      (l ++ [((v % 4294967296) &&& 127) ||| 128,
                        (((v % 4294967296) >>> 7) &&& 127) ||| 128,
                        (((v % 4294967296) >>> 7 >>> 7) &&& 127) ||| 128,
                        (((v % 4294967296) >>> 7 >>> 7 >>> 7) &&& 127) ||| 128]) ++
                        [((v % 4294967296) >>> 7 >>> 7 >>> 7 >>> 7) &&& 127] from by simp,
                    show l.length + 4 =
                      (l ++ [((v % 4294967296) &&& 127) ||| 128,
                        (((v % 4294967296) >>> 7) &&& 127) ||| 128,
                        (((v % 4294967296) >>> 7 >>> 7) &&& 127) ||| 128,
                        (((v % 4294967296) >>> 7 >>> 7 >>> 7) &&& 127) ||| 128]).length
                      from by simp]
                  rw [writeBigVarintHigh_spec3 _ _ _
                    (by simp only [shiftRight_div, Nat.div_div_eq_div_mul]; omega)
                    (by simp only [shiftRight_div, Nat.div_div_eq_div_mul]; omega)
                    (by simp only [shiftRight_div, Nat.div_div_eq_div_mul]; omega)
                    (by simp only [shiftRight_div, Nat.div_div_eq_div_mul]; omega)]
                  simp only [and_127, and_7, shiftRight_div, Nat.div_div_eq_div_mul,
                    Nat.shiftLeft_eq, mod128_lor_128, List.append_assoc, List.cons_append,
                    List.nil_append, List.length_append, List.length_cons, List.length_nil]
                  norm_num
                  rw [byte5_merge _ _ (by omega) (by omega)]
                  omega
                · by_cases c9 : v < 9223372036854775808
                  · have hb : encBytes v =
                        [v % 128 + 128, v / 128 % 128 + 128, v / 16384 % 128 + 128,
                         v / 2097152 % 128 + 128, v / 268435456 % 128 + 128,
                         v / 34359738368 % 128 + 128, v / 4398046511104 % 128 + 128,
                         v / 562949953421312 % 128 + 128, v / 72057594037927936 % 128] := by
                      rw [encBytes, if_neg c1, if_neg c2, if_neg c3, if_neg c4, if_neg c5,
                        if_neg c6, if_neg c7, if_neg c8, if_pos c9]
                      simp only [grp]
                      norm_num
                    rw [hb]
                    simp only [writeVarint, writeBigVarint]
                    rw [if_pos hbig, if_neg hfit, writeBigVarintLow_spec]
                    rw [show l ++ [((v % 4294967296) &&& 127) ||| 128,
                          (((v % 4294967296) >>> 7) &&& 127) ||| 128,
                          (((v % 4294967296) >>> 7 >>> 7) &&& 127) ||| 128,
                          (((v % 4294967296) >>> 7 >>> 7 >>> 7) &&& 127) ||| 128,
                          ((v % 4294967296) >>> 7 >>> 7 >>> 7 >>> 7) &&& 127] =
                        (l ++ [((v % 4294967296) &&& 127) ||| 128,
                          (((v % 4294967296) >>> 7) &&& 127) ||| 128,
                          (((v % 4294967296) >>> 7 >>> 7) &&& 127) ||| 128,
                          (((v % 4294967296) >>> 7 >>> 7 >>> 7) &&& 127) ||| 128]) ++
                          [((v % 4294967296) >>> 7 >>> 7 >>> 7 >>> 7) &&& 127] from by simp,
                      show l.length + 4 =
                        (l ++ [((v % 4294967296) &&& 127) ||| 128,
                          (((v % 4294967296) >>> 7) &&& 127) ||| 128,
                          (((v % 4294967296) >>> 7 >>> 7) &&& 127) ||| 128,
                          (((v % 4294967296) >>> 7 >>> 7 >>> 7) &&& 127) ||| 128]).length
                        from by simp]
                    rw [writeBigVarintHigh_spec4 _ _ _
                      (by simp only [shiftRight_div, Nat.div_div_eq_div_mul]; omega)
                      (by simp only [shiftRight_div, Nat.div_div_eq_div_mul]; omega)
                      (by simp only [shiftRight_div, Nat.div_div_eq_div_mul]; omega)
                      (by simp only [shiftRight_div, Nat.div_div_eq_div_mul]; omega)
                      (by simp only [shiftRight_div, Nat.div_div_eq_div_mul]; omega)]
                    simp only [and_127, and_7, shiftRight_div, Nat.div_div_eq_div_mul,
                      Nat.shiftLeft_eq, mod128_lor_128, List.append_assoc,
                      List.cons_append, List.nil_append, List.length_append,
                      List.length_cons, List.length_nil]
                    norm_num
                    rw [byte5_merge _ _ (by omega) (by omega)]
                    omega
                  · have hb : encBytes v =
                        [v % 128 + 128, v / 128 % 128 + 128, v / 16384 % 128 + 128,
                         v / 2097152 % 128 + 128, v / 268435456 % 128 + 128,
                         v / 34359738368 % 128 + 128, v / 4398046511104 % 128 + 128,
                         v / 562949953421312 % 128 + 128, v / 72057594037927936 % 128 + 128,
                         v / 9223372036854775808 % 128] := by
                      rw [encBytes, if_neg c1, if_neg c2, if_neg c3, if_neg c4, if_neg c5,
                        if_neg c6, if_neg c7, if_neg c8, if_neg c9]
                      simp only [grp]
                      norm_num
                    rw [hb]
                    simp only [writeVarint, writeBigVarint]
                    rw [if_pos hbig, if_neg hfit, writeBigVarintLow_spec]
                    rw [show l ++ [((v % 4294967296) &&& 127) ||| 128,
                          (((v % 4294967296) >>> 7) &&& 127) ||| 128,
                          (((v % 4294967296) >>> 7 >>> 7) &&& 127) ||| 128,
                          (((v % 4294967296) >>> 7 >>> 7 >>> 7) &&& 127) ||| 128,
                          ((v % 4294967296) >>> 7 >>> 7 >>> 7 >>> 7) &&& 127] =
                        (l ++ [((v % 4294967296) &&& 127) ||| 128,
                          (((v % 4294967296) >>> 7) &&& 127) ||| 128,
                          (((v % 4294967296) >>> 7 >>> 7) &&& 127) ||| 128,
                          (((v % 4294967296) >>> 7 >>> 7 >>> 7) &&& 127) ||| 128]) ++
                          [((v % 4294967296) >>> 7 >>> 7 >>> 7 >>> 7) &&& 127] from by simp,
                      show l.length + 4 =
                        (l ++ [((v % 4294967296) &&& 127) ||| 128,
                          (((v % 4294967296) >>> 7) &&& 127) ||| 128,
                          (((v % 4294967296) >>> 7 >>> 7) &&& 127) ||| 128,
                          (((v % 4294967296) >>> 7 >>> 7 >>> 7) &&& 127) ||| 128]).length
                        from by simp]
                    rw [writeBigVarintHigh_spec5 _ _ _
                      (by simp only [shiftRight_div, Nat.div_div_eq_div_mul]; omega)
                      (by simp only [shiftRight_div, Nat.div_div_eq_div_mul]; omega)
                      (by simp only [shiftRight_div, Nat.div_div_eq_div_mul]; omega)
                      (by simp only [shiftRight_div, Nat.div_div_eq_div_mul]; omega)
                      (by simp only [shiftRight_div, Nat.div_div_eq_div_mul]; omega)]
                    simp only [and_127, and_7, shiftRight_div, Nat.div_div_eq_div_mul,
                      Nat.shiftLeft_eq, mod128_lor_128, List.append_assoc,
                      List.cons_append, List.nil_append, List.length_append,
                      List.length_cons, List.length_nil]
                    norm_num
                    rw [byte5_merge _ _ (by omega) (by omega)]
                    omega

example :
    (writeVarint 127 ⟨[], 0⟩).map (fun p => p.buf) = .ok [127] := by rfl

example :
    (writeVarint 16384 ⟨[], 0⟩).map (fun p => p.buf) = .ok [128, 128, 1] := by rfl

example :
    (writeVarint 839483929049384 ⟨[], 0⟩).map (fun p => p.buf) =
      .ok [168, 242, 138, 171, 153, 240, 190, 1] := by rfl

example :
    (readVarint ⟨[168, 242, 138, 171, 153, 240, 190, 1], 0⟩).map (fun r => r.fst) =
      .ok 839483929049384 := by rfl

theorem writeVarint_at (v : Nat) (hv : v < 18446744073709551616) (l : List Nat) (pos : Nat)
    (hpos : pos = l.length) :
    writeVarint v ⟨l, pos⟩ = .ok ⟨l ++ encBytes v, pos + (encBytes v).length⟩ := by
  subst hpos
  exact writeVarint_encBytes v hv l

theorem readVarint_at (v : Nat) (hv : v < 18446744073709551616) (buf pre rest : List Nat)
    (pos : Nat) (hbuf : buf = pre ++ (encBytes v ++ rest)) (hpos : pos = pre.length) :
    readVarint ⟨buf, pos⟩ = .ok (v, ⟨buf, pos + (encBytes v).length⟩) := by
  subst hbuf
  subst hpos
  exact readVarint_encBytes v hv pre rest

theorem writeEntriesDelta_spec (entries : List Entry) :
    ∀ (lastID : Nat), (∀ e ∈ entries, e.tileID < 18446744073709551616) →
    ∀ (l : List Nat) (pos : Nat), pos = l.length →
    writeEntriesDelta entries lastID ⟨l, pos⟩ =
      .ok ⟨l ++ deltaBytes entries lastID, pos + (deltaBytes entries lastID).length⟩ := by
  induction entries with
  | nil =>
    intro lastID _ l pos hpos
    simp [writeEntriesDelta, deltaBytes]
  | cons e rest ih =>
    intro lastID hb l pos hpos
    have hd : e.tileID - lastID < 18446744073709551616 := by
      have := hb e (by simp)
      omega
    simp only [writeEntriesDelta]
    rw [writeVarint_at _ hd l pos hpos]
    dsimp only
    rw [ih e.tileID (fun x hx => hb x (by simp [hx])) _ _ (by simp [hpos])]
    simp [deltaBytes, List.append_assoc]
    omega

theorem writeEntriesField_spec (f : Entry → Nat) (entries : List Entry) :
    ∀ (_ : ∀ e ∈ entries, f e < 18446744073709551616)
      (l : List Nat) (pos : Nat), pos = l.length →
    writeEntriesField f entries ⟨l, pos⟩ =
      .ok ⟨l ++ catBytes (entries.map f), pos + (catBytes (entries.map f)).length⟩ := by
  induction entries with
  | nil =>
    intro _ l pos hpos
    simp [writeEntriesField, catBytes]
  | cons e rest ih =>
    intro hb l pos hpos
    simp only [writeEntriesField]
    rw [writeVarint_at _ (hb e (by simp)) l pos hpos]
    dsimp only
    rw [ih (fun x hx => hb x (by simp [hx])) _ _ (by simp [hpos])]
    simp [catBytes, List.append_assoc]
    omega

theorem readFields_spec (vs : List Nat) :
    ∀ (n : Nat), n = vs.length →
    ∀ (_ : ∀ v ∈ vs, v < 18446744073709551616) (buf pre rest : List Nat) (pos : Nat),
    buf = pre ++ (catBytes vs ++ rest) → pos = pre.length →
    readFields n ⟨buf, pos⟩ = .ok (vs, ⟨buf, pos + (catBytes vs).length⟩) := by
  induction vs with
  | nil =>
    intro n hn _ buf pre rest pos hbuf hpos
    subst hn
    simp [readFields, catBytes]
  | cons v vs ih =>
    intro n hn hb buf pre rest pos hbuf hpos
    subst hn
    simp only [List.length_cons, readFields]
    rw [readVarint_at v (hb v (by simp)) buf pre (catBytes vs ++ rest) pos
      (by simp [hbuf, catBytes, List.append_assoc]) hpos]
    dsimp only
    rw [ih vs.length rfl (fun x hx => hb x (by simp [hx])) buf (pre ++ encBytes v) rest _
      (by simp [hbuf, catBytes, List.append_assoc]) (by simp [hpos])]
    simp [catBytes, List.append_assoc]
    omega

theorem readEntriesDelta_spec (entries : List Entry) :
    ∀ (n : Nat), n = entries.length →
    ∀ (lastID : Nat), List.Chain (fun a b => a ≤ b) lastID (entries.map (fun e => e.tileID)) →
    (∀ e ∈ entries, e.tileID < 18446744073709551616) →
    ∀ (buf pre rest : List Nat) (pos : Nat),
    buf = pre ++ (deltaBytes entries lastID ++ rest) → pos = pre.length →
    readEntriesDelta n lastID ⟨buf, pos⟩ =
      .ok (entries.map resetEntry, ⟨buf, pos + (deltaBytes entries lastID).length⟩) := by
  induction entries with
  | nil =>
    intro n hn lastID _ _ buf pre rest pos hbuf hpos
    subst hn
    simp [readEntriesDelta, deltaBytes]
  | cons e rest ih =>
    intro n hn lastID hasc hb buf pre rest₀ pos hbuf hpos
    subst hn
    rw [List.map_cons, List.chain_cons] at hasc
    have hd : e.tileID - lastID < 18446744073709551616 := by
      have := hb e (by simp)
      omega
    simp only [List.length_cons, readEntriesDelta]
    rw [readVarint_at (e.tileID - lastID) hd buf pre
      (deltaBytes rest e.tileID ++ rest₀) pos
      (by simp [hbuf, deltaBytes, List.append_assoc]) hpos]
    dsimp only
    have hid : lastID + (e.tileID - lastID) = e.tileID := by
      have := hasc.1
      omega
    rw [hid]
    rw [ih rest.length rfl e.tileID hasc.2 (fun x hx => hb x (by simp [hx])) buf
      (pre ++ encBytes (e.tileID - lastID)) rest₀ _
      (by simp [hbuf, deltaBytes, List.append_assoc]) (by simp [hpos])]
    simp [deltaBytes, resetEntry, List.append_assoc]
    omega

theorem setRunLengths_map (entries : List Entry) :
    setRunLengths (entries.map resetEntry) (entries.map (fun e => e.runLength)) =
      entries.map (fun e => ⟨e.tileID, 0, 0, e.runLength⟩) := by
  induction entries with
  | nil => rfl
  | cons e rest ih => simp [setRunLengths, resetEntry, ih]

theorem setLengths_map (entries : List Entry) :
    setLengths (entries.map (fun e => (⟨e.tileID, 0, 0, e.runLength⟩ : Entry)))
        (entries.map (fun e => e.length)) =
      entries.map (fun e => ⟨e.tileID, 0, e.length, e.runLength⟩) := by
  induction entries with
  | nil => rfl
  | cons e rest ih => simp [setLengths, ih]

theorem setOffsets_map (entries : List Entry) :
    ∀ prev, setOffsets (entries.map (fun e => (⟨e.tileID, 0, e.length, e.runLength⟩ : Entry)))
        (entries.map (fun e => e.offset + 1)) prev = entries := by
  induction entries with
  | nil => intro prev; rfl
  | cons e rest ih =>
    intro prev
    cases prev with
    | none => simp [setOffsets, ih]
    | some pp => simp [setOffsets, ih]

/-- C2: for every strictly ascending entry list with in-range fields,
serializing the directory with the identity internal compression and
deserializing the result is the identity. -/
theorem serializeDir_roundtrip (entries : List Entry)
    (hsort : entries.Chain' (fun a b => a.tileID < b.tileID))
    (hbound : ∀ e ∈ entries, e.tileID < 18446744073709551616 ∧
      e.runLength < 18446744073709551616 ∧ e.length < 18446744073709551616 ∧
      e.offset + 1 < 18446744073709551616)
    (hcount : entries.length < 18446744073709551616) :
    ∃ buf, serializeDir entries (fun b => b) = .ok buf ∧
      deserializeDir buf = .ok entries := by
  have htid : ∀ e ∈ entries, e.tileID < 18446744073709551616 := fun e he => (hbound e he).1
  have hb1 : ∀ v ∈ entries.map (fun e => e.runLength), v < 18446744073709551616 := by
    intro v hv
    obtain ⟨e, he, rfl⟩ := List.mem_map.mp hv
    exact (hbound e he).2.1
  have hb2 : ∀ v ∈ entries.map (fun e => e.length), v < 18446744073709551616 := by
    intro v hv
    obtain ⟨e, he, rfl⟩ := List.mem_map.mp hv
    exact (hbound e he).2.2.1
  have hb3 : ∀ v ∈ entries.map (fun e => e.offset + 1), v < 18446744073709551616 := by
    intro v hv
    obtain ⟨e, he, rfl⟩ := List.mem_map.mp hv
    exact (hbound e he).2.2.2
  set B : List Nat :=
    encBytes entries.length ++ (deltaBytes entries 0 ++
      (catBytes (entries.map (fun e => e.runLength)) ++
        (catBytes (entries.map (fun e => e.length)) ++
          catBytes (entries.map (fun e => e.offset + 1))))) with hB
  refine ⟨B, ?_, ?_⟩
  · simp only [serializeDir]
    have s1 : writeVarint entries.length ⟨[], 0⟩ =
        .ok ⟨encBytes entries.length, (encBytes entries.length).length⟩ := by
      have h := writeVarint_at entries.length hcount [] 0 (by simp)
      simpa using h
    rw [s1]
    dsimp only
    rw [writeEntriesDelta_spec entries 0 htid (encBytes entries.length)
      ((encBytes entries.length).length) rfl]
    dsimp only
    rw [writeEntriesField_spec (fun e => e.runLength) entries
      (fun e he => (hbound e he).2.1)
      (encBytes entries.length ++ deltaBytes entries 0)
      ((encBytes entries.length).length + (deltaBytes entries 0).length) (by simp [Nat.add_assoc])]
    dsimp only
    rw [writeEntriesField_spec (fun e => e.length) entries
      (fun e he => (hbound e he).2.2.1)
      ((encBytes entries.length ++ deltaBytes entries 0) ++
        catBytes (entries.map (fun e => e.runLength)))
      ((encBytes entries.length).length + (deltaBytes entries 0).length +
        (catBytes (entries.map (fun e => e.runLength))).length) (by simp [Nat.add_assoc])]
    dsimp only
    rw [writeEntriesField_spec (fun e => e.offset + 1) entries
      (fun e he => (hbound e he).2.2.2)
      (((encBytes entries.length ++ deltaBytes entries 0) ++
        catBytes (entries.map (fun e => e.runLength))) ++
        catBytes (entries.map (fun e => e.length)))
      ((encBytes entries.length).length + (deltaBytes entries 0).length +
        (catBytes (entries.map (fun e => e.runLength))).length +
        (catBytes (entries.map (fun e => e.length))).length) (by simp [Nat.add_assoc])]
    dsimp only
    have hlen : (encBytes entries.length).length + (deltaBytes entries 0).length +
        (catBytes (entries.map (fun e => e.runLength))).length +
        (catBytes (entries.map (fun e => e.length))).length +
        (catBytes (entries.map (fun e => e.offset + 1))).length =
        ((((encBytes entries.length ++ deltaBytes entries 0) ++
          catBytes (entries.map (fun e => e.runLength))) ++
          catBytes (entries.map (fun e => e.length))) ++
          catBytes (entries.map (fun e => e.offset + 1))).length := by
      simp [Nat.add_assoc]
    rw [hlen, List.take_length, hB]
    simp [List.append_assoc]
  · have hasc : List.Chain (fun a b => a ≤ b) 0 (entries.map (fun e => e.tileID)) := by
      cases entries with
      | nil => simp
      | cons e rest =>
        rw [List.map_cons, List.chain_cons]
        refine ⟨Nat.zero_le _, ?_⟩
        have h2 : List.Chain (fun a b : Entry => a.tileID < b.tileID) e rest := hsort
        rw [List.chain_map]
        exact h2.imp (fun a b hab => Nat.le_of_lt hab)
    simp only [deserializeDir]
    have r1 : readVarint ⟨B, 0⟩ =
        .ok (entries.length, ⟨B, (encBytes entries.length).length⟩) := by
      have h := readVarint_at entries.length hcount B []
        (deltaBytes entries 0 ++ (catBytes (entries.map (fun e => e.runLength)) ++
          (catBytes (entries.map (fun e => e.length)) ++
            catBytes (entries.map (fun e => e.offset + 1))))) 0
        (by simp [hB]) (by simp)
      simpa using h
    rw [r1]
    dsimp only
    rw [readEntriesDelta_spec entries entries.length rfl 0 hasc htid B
      (encBytes entries.length)
      (catBytes (entries.map (fun e => e.runLength)) ++
        (catBytes (entries.map (fun e => e.length)) ++
          catBytes (entries.map (fun e => e.offset + 1))))
      ((encBytes entries.length).length)
      (by simp [hB, List.append_assoc]) rfl]
    dsimp only
    rw [readFields_spec (entries.map (fun e => e.runLength)) entries.length (by simp) hb1
      B (encBytes entries.length ++ deltaBytes entries 0)
      (catBytes (entries.map (fun e => e.length)) ++
        catBytes (entries.map (fun e => e.offset + 1)))
      ((encBytes entries.length).length + (deltaBytes entries 0).length)
      (by simp [hB, List.append_assoc]) (by simp [Nat.add_assoc])]
    dsimp only
    rw [readFields_spec (entries.map (fun e => e.length)) entries.length (by simp) hb2
      B ((encBytes entries.length ++ deltaBytes entries 0) ++
        catBytes (entries.map (fun e => e.runLength)))
      (catBytes (entries.map (fun e => e.offset + 1)))
      ((encBytes entries.length).length + (deltaBytes entries 0).length +
        (catBytes (entries.map (fun e => e.runLength))).length)
      (by simp [hB, List.append_assoc]) (by simp [Nat.add_assoc])]
    dsimp only
    rw [readFields_spec (entries.map (fun e => e.offset + 1)) entries.length (by simp) hb3
      B (((encBytes entries.length ++ deltaBytes entries 0) ++
        catBytes (entries.map (fun e => e.runLength))) ++
        catBytes (entries.map (fun e => e.length)))
      []
      ((encBytes entries.length).length + (deltaBytes entries 0).length +
        (catBytes (entries.map (fun e => e.runLength))).length +
        (catBytes (entries.map (fun e => e.length))).length)
      (by simp [hB, List.append_assoc]) (by simp [Nat.add_assoc])]
    dsimp only
    rw [setRunLengths_map, setLengths_map, setOffsets_map]

/-- C3: for every `v ∈ [0, 2^64)`, `writeVarint` succeeds, emits at most ten
bytes, and `readVarint` recovers exactly `v` from them. -/
theorem varint_roundtrip (v : Nat) (hv : v < 18446744073709551616) :
    ∃ p : BufferPosition, writeVarint v ⟨[], 0⟩ = .ok p ∧ p.buf.length ≤ 10 ∧
      readVarint ⟨p.buf, 0⟩ = .ok (v, ⟨p.buf, p.buf.length⟩) := by
  refine ⟨⟨encBytes v, (encBytes v).length⟩, ?_, ?_, ?_⟩
  · have h := writeVarint_encBytes v hv []
    simpa using h
  · rw [encBytes]
    split_ifs <;> simp
  · have h := readVarint_encBytes v hv [] []
    simpa using h

theorem varint_roundtrip_witness :
    ∃ p : BufferPosition, writeVarint 839483929049384 ⟨[], 0⟩ = .ok p ∧ p.buf.length ≤ 10 ∧
      readVarint ⟨p.buf, 0⟩ = .ok (839483929049384, ⟨p.buf, p.buf.length⟩) :=
  varint_roundtrip 839483929049384 (by norm_num)

theorem serializeDir_roundtrip_witness :
    ∃ buf,
      serializeDir [⟨0, 0, 11, 1⟩, ⟨2, 0, 11, 1⟩, ⟨34, 11, 13, 1⟩] (fun b => b) = .ok buf ∧
      deserializeDir buf = .ok [⟨0, 0, 11, 1⟩, ⟨2, 0, 11, 1⟩, ⟨34, 11, 13, 1⟩] :=
  serializeDir_roundtrip _ (by simp) (by decide) (by decide)

theorem findTileLoop_inv (entries : List Entry) (t : Nat)
    (hsort : ∀ (i j : Nat) (_hi : i < entries.length) (_hj : j < entries.length), i < j →
      entries[i].tileID < entries[j].tileID) :
    ∀ m n : Int, 0 ≤ m → m ≤ n + 1 → n < (entries.length : Int) →
    (∀ (i : Nat) (_hi : i < entries.length), (i : Int) < m → entries[i].tileID < t) →
    (∀ (i : Nat) (_hi : i < entries.length), n < (i : Int) → t < entries[i].tileID) →
    (match findTileLoop entries t m n with
     | (some e, _) => ∃ (i : Nat) (_hi : i < entries.length), entries[i] = e ∧ e.tileID = t
     | (none, nf) => -1 ≤ nf ∧ nf < (entries.length : Int) ∧
         (∀ (i : Nat) (_hi : i < entries.length), (i : Int) ≤ nf → entries[i].tileID < t) ∧
         (∀ (i : Nat) (_hi : i < entries.length), nf < (i : Int) → t < entries[i].tileID)) := by
  intro m n
  induction m, n using findTileLoop.induct entries t with
  | case1 m n h k e hgt ih =>
    intro hm hmn hlen inv1 inv2
    have hk : k = (n + m) / 2 := rfl
    have he : e = entries.getD k.toNat ⟨0, 0, 0, 0⟩ := rfl
    have hkb : m ≤ k ∧ k ≤ n := by omega
    have hkt : k.toNat < entries.length := by omega
    have heq : e = entries[k.toNat] := by
      rw [he]
      exact List.getD_eq_getElem _ _ hkt
    have het : entries[k.toNat].tileID < t := by
      rw [heq] at hgt
      omega
    have inv1a : ∀ (i : Nat) (_hi : i < entries.length), (i : Int) < k + 1 →
        entries[i].tileID < t := by
      intro i hi hik
      by_cases hc : (i : Int) < m
      · exact inv1 i hi hc
      · have hle : entries[i].tileID ≤ entries[k.toNat].tileID := by
          rcases Nat.lt_or_ge i k.toNat with hlt | hge
          · exact Nat.le_of_lt (hsort i k.toNat hi hkt hlt)
          · have hieq : i = k.toNat := by omega
            subst hieq
            exact Nat.le_refl _
        omega
    have step : findTileLoop entries t m n = findTileLoop entries t (k + 1) n := by
      rw [findTileLoop]
      have hgt2 : (t : Int) - (entries.getD ((n + m) / 2).toNat ⟨0, 0, 0, 0⟩).tileID > 0 := by
        rw [he, hk] at hgt
        exact hgt
      simp only [dif_pos h, if_pos hgt2]
    rw [step]
    exact ih (by omega) (by omega) hlen inv1a inv2
  | case2 m n h k e hgt hlt ih =>
    intro hm hmn hlen inv1 inv2
    have hk : k = (n + m) / 2 := rfl
    have he : e = entries.getD k.toNat ⟨0, 0, 0, 0⟩ := rfl
    have hkb : m ≤ k ∧ k ≤ n := by omega
    have hkt : k.toNat < entries.length := by omega
    have heq : e = entries[k.toNat] := by
      rw [he]
      exact List.getD_eq_getElem _ _ hkt
    have het : t < entries[k.toNat].tileID := by
      rw [heq] at hlt
      omega
    have inv2a : ∀ (i : Nat) (_hi : i < entries.length), k - 1 < (i : Int) →
        t < entries[i].tileID := by
      intro i hi hik
      by_cases hc : n < (i : Int)
      · exact inv2 i hi hc
      · have hle : entries[k.toNat].tileID ≤ entries[i].tileID := by
          rcases Nat.lt_or_ge k.toNat i with hgt2 | hge
          · exact Nat.le_of_lt (hsort k.toNat i hkt hi hgt2)
          · have hieq : i = k.toNat := by omega
            subst hieq
            exact Nat.le_refl _
        omega
    have step : findTileLoop entries t m n = findTileLoop entries t m (k - 1) := by
      rw [findTileLoop]
      have hgt2 : ¬ (t : Int) - (entries.getD ((n + m) / 2).toNat ⟨0, 0, 0, 0⟩).tileID > 0 := by
        rw [he, hk] at hgt
        exact hgt
      have hlt2 : (t : Int) - (entries.getD ((n + m) / 2).toNat ⟨0, 0, 0, 0⟩).tileID < 0 := by
        rw [he, hk] at hlt
        exact hlt
      simp only [dif_pos h, if_neg hgt2, if_pos hlt2]
    rw [step]
    exact ih (by omega) (by omega) (by omega) inv1 inv2a
  | case3 m n h k e hgt hlt =>
    intro hm hmn hlen inv1 inv2
    have hk : k = (n + m) / 2 := rfl
    have he : e = entries.getD k.toNat ⟨0, 0, 0, 0⟩ := rfl
    have hkb : m ≤ k ∧ k ≤ n := by omega
    have hkt : k.toNat < entries.length := by omega
    have heq : e = entries[k.toNat] := by
      rw [he]
      exact List.getD_eq_getElem _ _ hkt
    have step : findTileLoop entries t m n = (some e, n) := by
      rw [findTileLoop]
      have hgt2 : ¬ (t : Int) - (entries.getD ((n + m) / 2).toNat ⟨0, 0, 0, 0⟩).tileID > 0 := by
        rw [he, hk] at hgt
        exact hgt
      have hlt2 : ¬ (t : Int) - (entries.getD ((n + m) / 2).toNat ⟨0, 0, 0, 0⟩).tileID < 0 := by
        rw [he, hk] at hlt
        exact hlt
      simp only [dif_pos h, if_neg hgt2, if_neg hlt2]
    rw [step]
    refine ⟨k.toNat, hkt, heq.symm, ?_⟩
    rw [heq]
    rw [heq] at hgt hlt
    omega
  | case4 m n h =>
    intro hm hmn hlen inv1 inv2
    have step : findTileLoop entries t m n = (none, n) := by
      rw [findTileLoop]
      simp only [dif_neg h]
    rw [step]
    refine ⟨by omega, hlen, ?_, inv2⟩
    intro i hi hin
    exact inv1 i hi (by omega)

/-- C4: `findTile` on a strictly ascending directory returns the exact match
when one exists; on a miss it returns the last entry with a smaller `tileID`
exactly when that entry is a leaf pointer (`runLength = 0`) or the target
falls inside its run, and `none` otherwise, in particular when every entry
has a larger `tileID`. -/
theorem findTile_spec (entries : List Entry) (tileID : Nat)
    (hsort : List.Pairwise (fun a b => a.tileID < b.tileID) entries) :
    (∀ e ∈ entries, e.tileID = tileID → findTile entries tileID = some e) ∧
    (∀ (i : Nat) (_hi : i < entries.length),
      entries[i].tileID < tileID →
      (∀ (j : Nat) (_hj : j < entries.length), i < j → tileID < entries[j].tileID) →
      findTile entries tileID =
        if entries[i].runLength = 0 ∨ (tileID : Int) - entries[i].tileID < entries[i].runLength
        then some entries[i] else none) ∧
    ((∀ (i : Nat) (_hi : i < entries.length), tileID < entries[i].tileID) →
      findTile entries tileID = none) := by
  have hs := List.pairwise_iff_getElem.mp hsort
  have I0 := findTileLoop_inv entries tileID hs 0 ((entries.length : Int) - 1)
    (by omega) (by omega) (by omega)
    (fun i hi hlt => absurd hlt (by omega))
    (fun i hi hgt => absurd hgt (by omega))
  rcases hres : findTileLoop entries tileID 0 ((entries.length : Int) - 1) with ⟨found, nf⟩
  rw [hres] at I0
  refine ⟨?_, ?_, ?_⟩
  · intro e he het
    obtain ⟨ie, hie, hieq⟩ := List.mem_iff_getElem.mp he
    cases found with
    | some e2 =>
      obtain ⟨i2, hi2, hi2eq, hi2t⟩ := I0
      have hsame : i2 = ie := by
        by_contra hne
        rcases Nat.lt_or_ge i2 ie with hlt | hge
        · have hcmp := hs i2 ie hi2 hie hlt
          rw [hi2eq, hieq] at hcmp
          omega
        · have hlt2 : ie < i2 := by omega
          have hcmp := hs ie i2 hie hi2 hlt2
          rw [hi2eq, hieq] at hcmp
          omega
      simp only [findTile, hres]
      subst hsame
      rw [hi2eq] at hieq
      rw [hieq]
    | none =>
      obtain ⟨hnf1, hnf2, hlo, hhi⟩ := I0
      rcases Int.lt_or_le nf ie with hc | hc
      · have hcmp := hhi ie hie (by omega)
        rw [hieq] at hcmp
        omega
      · have hcmp := hlo ie hie (by omega)
        rw [hieq] at hcmp
        omega
  · intro i hi hlt hafter
    cases found with
    | some e2 =>
      obtain ⟨i2, hi2, hi2eq, hi2t⟩ := I0
      rcases Nat.lt_or_ge i i2 with hc | hc
      · have hcmp := hafter i2 hi2 hc
        rw [hi2eq] at hcmp
        omega
      · rcases Nat.lt_or_ge i2 i with hc2 | hc2
        · have hcmp := hs i2 i hi2 hi hc2
          rw [hi2eq] at hcmp
          omega
        · have hieq2 : i2 = i := by omega
          subst hieq2
          rw [← hi2eq] at hi2t
          omega
    | none =>
      obtain ⟨hnf1, hnf2, hlo, hhi⟩ := I0
      have hni : nf = (i : Int) := by
        rcases Int.lt_or_le nf (i : Int) with hc | hc
        · have hcmp := hhi i hi hc
          omega
        · rcases Int.lt_or_le (i : Int) nf with hc2 | hc2
          · have hnn : 0 ≤ nf := by omega
            have hnl : nf.toNat < entries.length := by omega
            have h1 := hlo nf.toNat hnl (by omega)
            have h2 := hafter nf.toNat hnl (by omega)
            omega
          · omega
      simp only [findTile, hres]
      rw [if_pos (by omega)]
      have hgd : entries.getD nf.toNat ⟨0, 0, 0, 0⟩ = entries[i] := by
        have hnn : nf.toNat = i := by omega
        rw [hnn]
        exact List.getD_eq_getElem _ _ hi
      rw [hgd]
      by_cases h0 : entries[i].runLength = 0
      · rw [if_pos h0, if_pos (Or.inl h0)]
      · rw [if_neg h0]
        by_cases h1 : (tileID : Int) - entries[i].tileID < entries[i].runLength
        · rw [if_pos h1, if_pos (Or.inr h1)]
        · rw [if_neg h1, if_neg (by tauto)]
  · intro hall
    cases found with
    | some e2 =>
      obtain ⟨i2, hi2, hi2eq, hi2t⟩ := I0
      have hcmp := hall i2 hi2
      rw [hi2eq] at hcmp
      omega
    | none =>
      obtain ⟨hnf1, hnf2, hlo, hhi⟩ := I0
      have hneg : nf < 0 := by
        by_contra hc
        have hnn : 0 ≤ nf := by omega
        have hnl : nf.toNat < entries.length := by omega
        have h1 := hlo nf.toNat hnl (by omega)
        have h2 := hall nf.toNat hnl
        omega
      simp only [findTile, hres]
      rw [if_neg (by omega)]

theorem findTile_spec_witness :
    (∀ e ∈ [(⟨2, 0, 5, 2⟩ : Entry), ⟨10, 5, 7, 0⟩], e.tileID = 3 →
      findTile [⟨2, 0, 5, 2⟩, ⟨10, 5, 7, 0⟩] 3 = some e) ∧
    (∀ (i : Nat) (_hi : i < ([(⟨2, 0, 5, 2⟩ : Entry), ⟨10, 5, 7, 0⟩]).length),
      ([(⟨2, 0, 5, 2⟩ : Entry), ⟨10, 5, 7, 0⟩])[i].tileID < 3 →
      (∀ (j : Nat) (_hj : j < ([(⟨2, 0, 5, 2⟩ : Entry), ⟨10, 5, 7, 0⟩]).length), i < j →
        3 < ([(⟨2, 0, 5, 2⟩ : Entry), ⟨10, 5, 7, 0⟩])[j].tileID) →
      findTile [⟨2, 0, 5, 2⟩, ⟨10, 5, 7, 0⟩] 3 =
        if ([(⟨2, 0, 5, 2⟩ : Entry), ⟨10, 5, 7, 0⟩])[i].runLength = 0 ∨
            (3 : Int) - ([(⟨2, 0, 5, 2⟩ : Entry), ⟨10, 5, 7, 0⟩])[i].tileID <
              ([(⟨2, 0, 5, 2⟩ : Entry), ⟨10, 5, 7, 0⟩])[i].runLength
        then some ([(⟨2, 0, 5, 2⟩ : Entry), ⟨10, 5, 7, 0⟩])[i] else none) ∧
    ((∀ (i : Nat) (_hi : i < ([(⟨2, 0, 5, 2⟩ : Entry), ⟨10, 5, 7, 0⟩]).length),
        3 < ([(⟨2, 0, 5, 2⟩ : Entry), ⟨10, 5, 7, 0⟩])[i].tileID) →
      findTile [⟨2, 0, 5, 2⟩, ⟨10, 5, 7, 0⟩] 3 = none) :=
  findTile_spec [⟨2, 0, 5, 2⟩, ⟨10, 5, 7, 0⟩] 3 (by decide)

theorem getByte_setByte (l : List Nat) (i v j : Nat) :
    getByte (setByte l i v) j = if j = i then v else getByte l j := by
  have hlen : i < (l ++ List.replicate (i + 1 - l.length) 0).length := by
    simp only [List.length_append, List.length_replicate]
    omega
  by_cases h : j = i
  · subst h
    rw [if_pos rfl, getByte, setByte, List.getD_eq_getElem?_getD, List.getElem?_set_self hlen]
    rfl
  · rw [if_neg h, getByte, getByte, setByte, List.getD_eq_getElem?_getD,
      List.getElem?_set_ne (fun hh => h hh.symm), List.getD_eq_getElem?_getD]
    rcases Nat.lt_or_ge j l.length with hj | hj
    · rw [List.getElem?_append_left hj]
    · rw [List.getElem?_append_right hj, List.getElem?_replicate, List.getElem?_eq_none hj]
      split <;> rfl

/-- C10: the 64-bit field codec splits a value into two little-endian 32-bit
halves; for every `v ≤ 2^53 - 1` (the float-exact range the writer uses)
`getUint64` recovers `v` from the bytes `setUint64` stores, at any offset in
any buffer. -/
theorem uint64_roundtrip (dv : List Nat) (o v : Nat) (hv : v ≤ 9007199254740991) :
    getUint64 (setUint64 dv o v) o = v := by
  have h65536 : ∀ x : Nat, x / 65536 = x / 256 / 256 := by
    intro x
    rw [Nat.div_div_eq_div_mul]
  have h16777216 : ∀ x : Nat, x / 16777216 = x / 256 / 256 / 256 := by
    intro x
    rw [Nat.div_div_eq_div_mul, Nat.div_div_eq_div_mul]
  simp only [setUint64, setUint32, getUint64, getUint32, getByte_setByte, Nat.add_assoc]
  norm_num
  simp only [h65536, h16777216]
  omega

theorem uint64_roundtrip_witness :
    getUint64 (setUint64 [] 2 9007199254740991) 2 = 9007199254740991 :=
  uint64_roundtrip [] 2 9007199254740991 (by norm_num)

/-- C8 (corrected): `zxyToTileID` succeeds exactly when `zoom ≤ 26` and both
coordinates are at most `2^zoom - 1`; the guard has no lower bound, so
negative `x` or `y` is accepted rather than rejected with an error. -/
theorem zxyToTileID_ok_iff (zoom : Nat) (x y : Int) :
    (∃ id, zxyToTileID zoom x y = .ok id) ↔
      zoom ≤ 26 ∧ x ≤ 2 ^ zoom - 1 ∧ y ≤ 2 ^ zoom - 1 := by
  unfold zxyToTileID
  split_ifs with h1 h2
  · constructor
    · rintro ⟨id, h⟩
      cases h
    · intro h
      omega
  · constructor
    · rintro ⟨id, h⟩
      cases h
    · intro h
      exact absurd h2 (by push_neg; omega)
  · constructor
    · intro _
      push_neg at h2
      refine ⟨by omega, h2.1, h2.2⟩
    · intro _
      exact ⟨_, rfl⟩

/-- C8 counterexample: the call with `x = -1` (which the spec says must fail
with InvalidCoordinate) passes the guard and returns tile ID `0`. -/
theorem zxyToTileID_negative_ok : zxyToTileID 0 (-1) 0 = .ok 0 := by rfl

theorem optLoop_root_lt (entries : List Entry) (target : Int) :
    ∀ fuel leafSize b, optLoop entries target leafSize fuel = .ok b →
      (b.1.length : Int) < target := by
  intro fuel
  induction fuel with
  | zero =>
    intro leafSize b h
    cases h
  | succ f ih =>
    intro leafSize b h
    unfold optLoop at h
    cases hb : buildRootsLeaves entries leafSize with
    | error e =>
      rw [hb] at h
      cases h
    | ok built =>
      rw [hb] at h
      dsimp only at h
      by_cases hlt : (built.1.length : Int) < target
      · rw [if_pos hlt] at h
        cases h
        exact hlt
      · rw [if_neg hlt] at h
        exact ih _ _ h

theorem optimizeDirectories_root_lt (entries : List Entry) (target : Int) (fuel : Nat)
    (b : List Nat × List Nat × Nat) (h : optimizeDirectories entries target fuel = .ok b) :
    (b.1.length : Int) < target := by
  unfold optimizeDirectories at h
  cases hs : serializeDir entries (fun b => b) with
  | error e =>
    rw [hs] at h
    cases h
  | ok testBytes =>
    rw [hs] at h
    dsimp only at h
    by_cases hlt : (testBytes.length : Int) < target
    · rw [if_pos hlt] at h
      cases h
      exact hlt
    · rw [if_neg hlt] at h
      exact optLoop_root_lt entries target fuel 4096 b h

/-- C6 (corrected): the planar `#commit` sizes the root directory against the
budget `98304 - 262 - M` (not `98304 - 127 - M`) and places the root at
prelude offset `262` (`S2_HEADER_SIZE_BYTES`, not `127`), metadata right
after it, tile data at `98304`. -/
theorem commit_layout_spec (tileEntries : List Entry) (M offset fuel : Nat) (hd : HeaderM)
    (h : commitModel tileEntries M offset fuel = .ok hd) :
    hd.targetRootLength = 98304 - 262 - (M : Int) ∧
    hd.rootDirectoryOffset = 262 ∧
    (hd.rootDirectoryLength : Int) < 98304 - 262 - (M : Int) ∧
    hd.jsonMetadataOffset = 262 + hd.rootDirectoryLength ∧
    hd.tileDataOffset = 98304 ∧
    hd.leafDirectoryOffset = offset + 98304 := by
  simp only [commitModel] at h
  cases ho : optimizeDirectories tileEntries ((S2_ROOT_SIZE : Int) - S2_HEADER_SIZE_BYTES - M) fuel with
  | error e =>
    rw [ho] at h
    cases h
  | ok b =>
    rw [ho] at h
    cases h
    have hroot := optimizeDirectories_root_lt _ _ _ _ ho
    refine ⟨rfl, rfl, ?_, rfl, rfl, rfl⟩
    simpa [S2_ROOT_SIZE, S2_HEADER_SIZE_BYTES] using hroot

theorem commit_layout_spec_witness :
    (⟨262, 5, 267, 37, 98315, 0, 98304, 11, 1, 98005⟩ : HeaderM).targetRootLength =
        98304 - 262 - (37 : Int) ∧
    (⟨262, 5, 267, 37, 98315, 0, 98304, 11, 1, 98005⟩ : HeaderM).rootDirectoryOffset = 262 ∧
    ((⟨262, 5, 267, 37, 98315, 0, 98304, 11, 1, 98005⟩ : HeaderM).rootDirectoryLength : Int) <
        98304 - 262 - (37 : Int) ∧
    (⟨262, 5, 267, 37, 98315, 0, 98304, 11, 1, 98005⟩ : HeaderM).jsonMetadataOffset =
        262 + (⟨262, 5, 267, 37, 98315, 0, 98304, 11, 1, 98005⟩ : HeaderM).rootDirectoryLength ∧
    (⟨262, 5, 267, 37, 98315, 0, 98304, 11, 1, 98005⟩ : HeaderM).tileDataOffset = 98304 ∧
    (⟨262, 5, 267, 37, 98315, 0, 98304, 11, 1, 98005⟩ : HeaderM).leafDirectoryOffset =
        11 + 98304 :=
  commit_layout_spec [⟨0, 0, 11, 1⟩] 37 11 1 _ (by rfl)

/-- C6 counterexample: a single-tile planar archive with a 37-byte metadata
blob gets `rootDirectoryOffset = 262 ≠ 127` and budget
`98005 ≠ 98304 - 127 - 37`. -/
theorem commit_root_at_127_counterexample :
    ∃ hd, commitModel [⟨0, 0, 11, 1⟩] 37 11 1 = .ok hd ∧
      hd.rootDirectoryOffset ≠ 127 ∧ hd.targetRootLength ≠ 98304 - 127 - 37 := by
  exact ⟨⟨262, 5, 267, 37, 98315, 0, 98304, 11, 1, 98005⟩, by rfl, by decide, by decide⟩

/-- C7 (code bug): writing the same payload at tile IDs `0` then `1` makes the
second `writeTile` hit the dedup map with the run-extension condition true;
instead of incrementing the last entry's `runLength` the source executes
`tileEntries[-1].runLength++`, where `tileEntries[-1]` is `undefined`, and
throws a `TypeError`. -/
theorem writeTile_runExtension_typeError :
    ∃ st1,
      writeTile (fun l => l.foldl (fun a b => a * 256 + b) 1)
        ⟨[], [], 0, 0, true, []⟩ 0 [7] = .ok st1 ∧
      writeTile (fun l => l.foldl (fun a b => a * 256 + b) 1) st1 1 [7] =
        .error "TypeError: Cannot read properties of undefined (reading runLength)" := by
  refine ⟨⟨[⟨0, 0, 1, 1⟩], [(263, 0)], 1, 1, true, [7]⟩, by rfl, by rfl⟩

theorem evict_le (maxSize : Nat) (m : List (Nat × List Entry)) (order : List Nat)
    (h : order.length ≤ maxSize) : evict maxSize m order = (m, order) := by
  rw [evict, dif_neg (by omega)]

theorem evict_one (maxSize : Nat) (m : List (Nat × List Entry)) (order : List Nat) (k : Nat)
    (h : order.length = maxSize + 1) (hl : order.getLast? = some k) :
    evict maxSize m order = (mapDelete m k, order.dropLast) := by
  rw [evict, dif_pos (by omega), hl]
  exact evict_le _ _ _ (by simp [List.length_dropLast]; omega)

theorem spliceOne_jsIndexOf (l : List Nat) (k : Nat) (h : k ∈ l) :
    spliceOne l (jsIndexOf l k) = l.erase k := by
  induction l with
  | nil => cases h
  | cons a t ih =>
    by_cases hk : k = a
    · subst hk
      simp [jsIndexOf, spliceOne, List.indexOf_cons_self, List.erase_cons_head]
    · have hmem : k ∈ t := by
        rcases List.mem_cons.mp h with h1 | h1
        · exact absurd h1 hk
        · exact h1
      have hne2 : (a == k) = false := by
        rw [beq_eq_false_iff_ne]
        exact fun hh => hk hh.symm
      have ih2 : t.take (t.indexOf k) ++ t.drop (t.indexOf k + 1) = t.erase k := by
        have hh := ih hmem
        rw [jsIndexOf, if_pos hmem, spliceOne, if_neg (by omega)] at hh
        simpa using hh
      rw [jsIndexOf, if_pos h, List.indexOf_cons, hne2]
      simp only [cond_false, spliceOne]
      rw [if_neg (by omega)]
      simp only [Int.toNat_natCast]
      rw [List.take_succ_cons, List.drop_succ_cons, List.erase_cons_tail, List.cons_append, ih2]
      simp [hne2]

theorem lookup_append (l₁ l₂ : List (Nat × List Entry)) (k : Nat) :
    (l₁ ++ l₂).lookup k = (l₁.lookup k).or (l₂.lookup k) := by
  induction l₁ with
  | nil => simp
  | cons a t ih =>
    rcases a with ⟨a1, a2⟩
    by_cases hka : k = a1
    · simp [List.lookup, hka]
    · simp only [List.cons_append, List.lookup, ih]
      rw [show (k == a1) = false from by simpa using hka]
      exact ih

theorem mapHas_single (k2 k : Nat) (v : List Entry) :
    mapHas [(k, v)] k2 = true ↔ k2 = k := by
  unfold mapHas
  by_cases h : k2 = k
  · simp [List.lookup, h]
  · rw [List.lookup, show (k2 == k) = false from by simpa using h]
    simp [h]

theorem mapHas_mapSet_new (m : List (Nat × List Entry)) (k : Nat) (v : List Entry) (k2 : Nat)
    (hnew : mapHas m k = false) :
    (mapHas (mapSet m k v) k2 = true) ↔ (k2 = k ∨ mapHas m k2 = true) := by
  unfold mapSet
  rw [if_neg (by unfold mapHas at hnew; simp [hnew])]
  unfold mapHas
  rw [lookup_append, Option.isSome_or]
  rw [Bool.or_eq_true]
  have hs := mapHas_single k2 k v
  unfold mapHas at hs
  constructor
  · rintro (h1 | h1)
    · exact Or.inr h1
    · exact Or.inl (hs.mp h1)
  · rintro (h1 | h1)
    · exact Or.inr (hs.mpr h1)
    · exact Or.inl h1

theorem mapHas_mapDelete (m : List (Nat × List Entry)) (k k2 : Nat) :
    mapHas (mapDelete m k) k2 = if k2 = k then false else mapHas m k2 := by
  unfold mapHas mapDelete
  induction m with
  | nil => simp
  | cons a t ih =>
    rcases a with ⟨a1, a2⟩
    by_cases hak : a1 = k
    · subst hak
      rw [List.filter_cons_of_neg (by simp)]
      rw [ih]
      by_cases h2 : k2 = a1
      · simp [h2]
      · rw [if_neg h2, if_neg h2, List.lookup,
          show (k2 == a1) = false from by simpa using h2]
    · rw [List.filter_cons_of_pos (by simpa using hak)]
      by_cases h2 : k2 = a1
      · subst h2
        rw [if_neg hak, List.lookup, List.lookup]
        simp
      · rw [List.lookup, List.lookup, show (k2 == a1) = false from by simpa using h2]
        exact ih

theorem cacheSet_fresh (c : DirCache) (key : Nat) (v : List Entry)
    (hf : mapHas c.entries key = false) :
    cacheSet c key v =
      { c with
        entries := mapSet (evict c.maxSize c.entries (key :: c.order)).1 key v
        order := (evict c.maxSize c.entries (key :: c.order)).2 } := by
  simp only [cacheSet, hf, Bool.false_eq_true, if_false]

theorem cacheGet_promotes (c : DirCache) (k : Nat) (hk : k ∈ c.order)
    (hh : mapHas c.entries k = true) :
    (cacheGet c k).1 = mapGet c.entries k ∧
    (cacheGet c k).2.order = k :: c.order.erase k := by
  unfold cacheGet
  rw [if_pos hh]
  refine ⟨rfl, ?_⟩
  dsimp only
  rw [spliceOne_jsIndexOf c.order k hk]

theorem foldSet_inv (N : Nat) (hN : 1 ≤ N) :
    ∀ (kvs : List (Nat × List Entry)) (c : DirCache),
      c.maxSize = N →
      (∀ k, mapHas c.entries k = true ↔ k ∈ c.order) →
      c.order.Nodup →
      c.order.length ≤ N →
      (∀ kv ∈ kvs, kv.1 ∉ c.order) →
      (kvs.map Prod.fst).Nodup →
      (foldSet c kvs).order = ((kvs.map Prod.fst).reverse ++ c.order).take N ∧
      (∀ k, mapHas (foldSet c kvs).entries k = true ↔ k ∈ (foldSet c kvs).order) := by
  intro kvs
  induction kvs with
  | nil =>
    intro c hmax hhas hnd hlen hfresh hkeys
    refine ⟨?_, ?_⟩
    · simp only [foldSet, List.foldl_nil, List.map_nil, List.reverse_nil, List.nil_append]
      exact (List.take_of_length_le hlen).symm
    · simpa [foldSet] using hhas
  | cons kv rest ih =>
    intro c hmax hhas hnd hlen hfresh hkeys
    have hfresh1 : kv.1 ∉ c.order := hfresh kv (List.mem_cons_self kv rest)
    have hhas1 : mapHas c.entries kv.1 = false := by
      cases hb : mapHas c.entries kv.1
      · rfl
      · exact absurd ((hhas kv.1).mp hb) hfresh1
    have hstep := cacheSet_fresh c kv.1 kv.2 hhas1
    obtain ⟨horder2, hhas2, hnd2, hlen2⟩ :
        (cacheSet c kv.1 kv.2).order = (kv.1 :: c.order).take N ∧
        (∀ k, mapHas (cacheSet c kv.1 kv.2).entries k = true ↔
          k ∈ (cacheSet c kv.1 kv.2).order) ∧
        (cacheSet c kv.1 kv.2).order.Nodup ∧
        (cacheSet c kv.1 kv.2).order.length ≤ N := by
      rcases Nat.lt_or_ge c.order.length N with hcase | hcase
      · have hev : evict c.maxSize c.entries (kv.1 :: c.order) = (c.entries, kv.1 :: c.order) := by
          rw [hmax]
          exact evict_le _ _ _ (by simp only [List.length_cons]; omega)
        rw [hstep, hev]
        dsimp only
        have htk : (kv.1 :: c.order).take N = kv.1 :: c.order :=
          List.take_of_length_le (by simp only [List.length_cons]; omega)
        refine ⟨htk.symm, ?_, ?_, ?_⟩
        · intro k
          constructor
          · intro h
            rcases (mapHas_mapSet_new _ _ _ _ hhas1).mp h with h1 | h1
            · exact List.mem_cons.mpr (Or.inl h1)
            · exact List.mem_cons.mpr (Or.inr ((hhas k).mp h1))
          · intro h
            rcases List.mem_cons.mp h with h1 | h1
            · exact (mapHas_mapSet_new _ _ _ _ hhas1).mpr (Or.inl h1)
            · exact (mapHas_mapSet_new _ _ _ _ hhas1).mpr (Or.inr ((hhas k).mpr h1))
        · exact List.nodup_cons.mpr ⟨hfresh1, hnd⟩
        · simp only [List.length_cons]
          omega
      · have hlenN : c.order.length = N := by omega
        have hne : c.order ≠ [] := by
          intro hcontra
          rw [hcontra] at hlenN
          simp at hlenN
          omega
        obtain ⟨init, last, hdec⟩ : ∃ init last, c.order = init ++ [last] :=
          ⟨c.order.dropLast, c.order.getLast hne, (List.dropLast_append_getLast hne).symm⟩
        have hinitlen : init.length = N - 1 := by
          rw [hdec] at hlenN
          simp at hlenN
          omega
        have hevone : evict c.maxSize c.entries (kv.1 :: c.order) =
            (mapDelete c.entries last, kv.1 :: init) := by
          rw [hmax, hdec]
          have hassoc : kv.1 :: (init ++ [last]) = (kv.1 :: init) ++ [last] := by simp
          rw [hassoc]
          rw [evict_one N c.entries ((kv.1 :: init) ++ [last]) last
            (by simp; omega)
            (List.getLast?_concat _)]
          rw [List.dropLast_concat]
        have hlastinit : last ∉ init := by
          intro hc
          have hd := hnd
          rw [hdec] at hd
          exact (List.nodup_append.mp hd).2.2 hc (List.mem_singleton.mpr rfl)
        have hmemorder : ∀ k, k ∈ c.order ↔ k ∈ init ∨ k = last := by
          intro k
          rw [hdec, List.mem_append, List.mem_singleton]
        have hdelnew : mapHas (mapDelete c.entries last) kv.1 = false := by
          rw [mapHas_mapDelete]
          by_cases hkl : kv.1 = last
          · rw [if_pos hkl]
          · rw [if_neg hkl]
            exact hhas1
        have htk : (kv.1 :: c.order).take N = kv.1 :: init := by
          rw [hdec, show kv.1 :: (init ++ [last]) = (kv.1 :: init) ++ [last] from by simp]
          rw [List.take_append_eq_append_take]
          rw [List.take_of_length_le (by simp only [List.length_cons]; omega)]
          rw [show N - (kv.1 :: init).length = 0 from by simp only [List.length_cons]; omega]
          simp
        rw [hstep, hevone]
        dsimp only
        refine ⟨htk.symm, ?_, ?_, ?_⟩
        · intro k
          constructor
          · intro h
            rcases (mapHas_mapSet_new _ _ _ _ hdelnew).mp h with h1 | h1
            · exact List.mem_cons.mpr (Or.inl h1)
            · rw [mapHas_mapDelete] at h1
              by_cases hkl : k = last
              · rw [if_pos hkl] at h1
                simp at h1
              · rw [if_neg hkl] at h1
                rcases (hmemorder k).mp ((hhas k).mp h1) with h2 | h2
                · exact List.mem_cons.mpr (Or.inr h2)
                · exact absurd h2 hkl
          · intro h
            rcases List.mem_cons.mp h with h1 | h1
            · exact (mapHas_mapSet_new _ _ _ _ hdelnew).mpr (Or.inl h1)
            · refine (mapHas_mapSet_new _ _ _ _ hdelnew).mpr (Or.inr ?_)
              rw [mapHas_mapDelete, if_neg (fun hkl => hlastinit (by rw [← hkl]; exact h1))]
              exact (hhas k).mpr ((hmemorder k).mpr (Or.inl h1))
        · have hndinit : init.Nodup := by
            have hd := hnd
            rw [hdec] at hd
            exact (List.nodup_append.mp hd).1
          refine List.nodup_cons.mpr ⟨?_, hndinit⟩
          intro hc
          exact hfresh1 ((hmemorder kv.1).mpr (Or.inl hc))
        · simp only [List.length_cons]
          omega
    have hmax2 : (cacheSet c kv.1 kv.2).maxSize = N := by
      rw [hstep]
      exact hmax
    have hkeyrest : kv.1 ∉ rest.map Prod.fst := (List.nodup_cons.mp (by simpa using hkeys)).1
    have hfresh2 : ∀ kv2 ∈ rest, kv2.1 ∉ (cacheSet c kv.1 kv.2).order := by
      intro kv2 hkv2 hc
      rw [horder2] at hc
      rcases List.mem_cons.mp (List.take_subset _ _ hc) with h1 | h1
      · exact hkeyrest (h1 ▸ List.mem_map_of_mem Prod.fst hkv2)
      · exact hfresh kv2 (List.mem_cons_of_mem kv hkv2) h1
    have hkeys2 : (rest.map Prod.fst).Nodup := (List.nodup_cons.mp (by simpa using hkeys)).2
    obtain ⟨ho, hh⟩ := ih (cacheSet c kv.1 kv.2) hmax2 hhas2 hnd2 hlen2 hfresh2 hkeys2
    constructor
    · rw [show foldSet c (kv :: rest) = foldSet (cacheSet c kv.1 kv.2) rest from rfl, ho, horder2]
      rw [List.map_cons, List.reverse_cons, List.append_assoc, List.singleton_append]
      rw [List.take_append_eq_append_take, List.take_append_eq_append_take, List.take_take]
      rw [min_eq_left (by omega)]
    · exact fun k => hh k

/-- C9 (corrected): inserting distinct keys into a capacity-`N` cache keeps
exactly the `N` most recently inserted keys (in `order` and in the map), and
`get` of a present key promotes it to the front of `order`; but `delete` is
`super.delete` alone: it removes the map entry and leaves `order` unchanged,
contrary to the spec's "both map and order are updated". -/
theorem dirCache_spec (N : Nat) (hN : 1 ≤ N) (kvs : List (Nat × List Entry))
    (hkeys : (kvs.map Prod.fst).Nodup) :
    ((foldSet (emptyCache N) kvs).order = (kvs.map Prod.fst).reverse.take N ∧
      (∀ k, mapHas (foldSet (emptyCache N) kvs).entries k = true ↔
        k ∈ (kvs.map Prod.fst).reverse.take N)) ∧
    (∀ (c : DirCache) (k : Nat), k ∈ c.order → mapHas c.entries k = true →
      (cacheGet c k).1 = mapGet c.entries k ∧
      (cacheGet c k).2.order = k :: c.order.erase k) ∧
    (∀ (c : DirCache) (k : Nat),
      (cacheDelete c k).1 = mapHas c.entries k ∧
      (cacheDelete c k).2.entries = mapDelete c.entries k ∧
      (cacheDelete c k).2.order = c.order) := by
  have hinv := foldSet_inv N hN kvs (emptyCache N) rfl
    (by
      intro k
      simp [mapHas, emptyCache, List.lookup])
    (by simp [emptyCache])
    (by simp [emptyCache])
    (by
      intro kv _
      simp [emptyCache])
    hkeys
  obtain ⟨h1, h2⟩ := hinv
  rw [show (emptyCache N).order = [] from rfl, List.append_nil] at h1
  refine ⟨⟨h1, ?_⟩, ?_, ?_⟩
  · intro k
    rw [← h1]
    exact h2 k
  · exact fun c k hk hh => cacheGet_promotes c k hk hh
  · exact fun c k => ⟨rfl, rfl, rfl⟩

/-- C9 counterexample: after `set 1` then `delete 1` the map is empty but the
recency array still holds `[1]` — `delete` does not update `order`. -/
theorem cacheDelete_order_stale :
    (cacheDelete (cacheSet (emptyCache 1) 1 []) 1).2.entries = [] ∧
    (cacheDelete (cacheSet (emptyCache 1) 1 []) 1).2.order = [1] := by
  constructor
  · simp [cacheDelete, cacheSet, emptyCache, evict, mapHas, mapSet, mapDelete,
      spliceOne, jsIndexOf, mapGet, List.lookup]
  · simp [cacheDelete, cacheSet, emptyCache, evict, mapHas, mapSet, mapDelete,
      spliceOne, jsIndexOf, List.lookup]

theorem dirCache_spec_witness :
    ((foldSet (emptyCache 1) [(1, []), (2, [])]).order =
        (([(1, []), (2, [])] : List (Nat × List Entry)).map Prod.fst).reverse.take 1 ∧
      (∀ k, mapHas (foldSet (emptyCache 1) [(1, []), (2, [])]).entries k = true ↔
        k ∈ (([(1, []), (2, [])] : List (Nat × List Entry)).map Prod.fst).reverse.take 1)) ∧
    (∀ (c : DirCache) (k : Nat), k ∈ c.order → mapHas c.entries k = true →
      (cacheGet c k).1 = mapGet c.entries k ∧
      (cacheGet c k).2.order = k :: c.order.erase k) ∧
    (∀ (c : DirCache) (k : Nat),
      (cacheDelete c k).1 = mapHas c.entries k ∧
      (cacheDelete c k).2.entries = mapDelete c.entries k ∧
      (cacheDelete c k).2.order = c.order) :=
  dirCache_spec 1 (by decide) [(1, []), (2, [])] (by decide)

theorem getTileGo_chain (env : WalkEnv) (t : Nat) :
    ∀ (n : Nat) (p q : Nat × Nat), leafChain env t n p q →
      ∀ fuel, getTileGo env t p.1 p.2 (n + fuel) = getTileGo env t q.1 q.2 fuel := by
  intro n
  induction n with
  | zero =>
    intro p q h fuel
    have hpq : p = q := h
    rw [hpq, Nat.zero_add]
  | succ m ih =>
    intro p q h fuel
    obtain ⟨r, hs, hc⟩ := h
    obtain ⟨dir, entry, hdir, hfind, hrl, hq⟩ := hs
    rw [show m + 1 + fuel = (m + fuel) + 1 from by omega]
    rw [getTileGo, hdir]
    dsimp only
    rw [hfind]
    dsimp only
    rw [if_neg (by omega)]
    rw [← show r.1 = env.leafDirectoryOffset + entry.offset from by rw [hq],
      ← show r.2 = entry.length from by rw [hq]]
    exact ih r q hc fuel

/-- C5: the `#getTile` walk: a chain of `n ≤ 3` leaf descents followed by a
directory miss or `findTile` miss yields `none`; a run hit at the end yields
that tile range; a chain of four leaf descents ends in the
`Maximum directory depth exceeded` error, so at most four directory levels
are ever loaded. -/
theorem getTileWalk_spec (env : WalkEnv) (tileID : Nat) (p q : Nat × Nat) (n : Nat)
    (hn : n ≤ 4) (hchain : leafChain env tileID n p q) :
    (n ≤ 3 →
      (env.dirAt q.1 q.2 = none → getTileWalk env tileID p.1 p.2 = .ok none) ∧
      (∀ dir, env.dirAt q.1 q.2 = some dir → findTile dir tileID = none →
        getTileWalk env tileID p.1 p.2 = .ok none) ∧
      (∀ dir e, env.dirAt q.1 q.2 = some dir → findTile dir tileID = some e →
        e.runLength > 0 →
        getTileWalk env tileID p.1 p.2 =
          .ok (some (env.tileDataOffset + e.offset, e.length)))) ∧
    (n = 4 → getTileWalk env tileID p.1 p.2 = .error "Maximum directory depth exceeded") := by
  constructor
  · intro h3
    have hstep : getTileGo env tileID p.1 p.2 4 = getTileGo env tileID q.1 q.2 (4 - n) := by
      have hh := getTileGo_chain env tileID n p q hchain (4 - n)
      rw [show n + (4 - n) = 4 from by omega] at hh
      exact hh
    obtain ⟨f, hf⟩ : ∃ f, 4 - n = f + 1 := ⟨3 - n, by omega⟩
    refine ⟨?_, ?_, ?_⟩
    · intro hdir
      unfold getTileWalk
      rw [hstep, hf, getTileGo, hdir]
    · intro dir hdir hfind
      unfold getTileWalk
      rw [hstep, hf, getTileGo, hdir]
      dsimp only
      rw [hfind]
    · intro dir e hdir hfind hrl
      unfold getTileWalk
      rw [hstep, hf, getTileGo, hdir]
      dsimp only
      rw [hfind]
      dsimp only
      rw [if_pos hrl]
  · intro h4
    subst h4
    unfold getTileWalk
    have hh := getTileGo_chain env tileID 4 p q hchain 0
    rw [show (4 : Nat) + 0 = 4 from rfl] at hh
    rw [hh]
    rfl

theorem getTileWalk_spec_witness :
    getTileWalk
      ⟨fun o l =>
        if o = 0 ∧ l = 10 then some [⟨7, 100, 10, 0⟩]
        else if o = 1100 ∧ l = 10 then some [⟨7, 200, 10, 0⟩]
        else if o = 1200 ∧ l = 10 then some [⟨7, 300, 10, 0⟩]
        else if o = 1300 ∧ l = 10 then some [⟨7, 400, 10, 0⟩]
        else none, 5000, 1000⟩ 7 0 10 = .error "Maximum directory depth exceeded" :=
  (getTileWalk_spec
    ⟨fun o l =>
      if o = 0 ∧ l = 10 then some [⟨7, 100, 10, 0⟩]
      else if o = 1100 ∧ l = 10 then some [⟨7, 200, 10, 0⟩]
      else if o = 1200 ∧ l = 10 then some [⟨7, 300, 10, 0⟩]
      else if o = 1300 ∧ l = 10 then some [⟨7, 400, 10, 0⟩]
      else none, 5000, 1000⟩ 7 (0, 10) (1400, 10) 4 (by decide)
    ⟨(1100, 10),
     ⟨[⟨7, 100, 10, 0⟩], ⟨7, 100, 10, 0⟩, rfl, by simp [findTile, findTileLoop], rfl, rfl⟩,
     (1200, 10),
     ⟨[⟨7, 200, 10, 0⟩], ⟨7, 200, 10, 0⟩, rfl, by simp [findTile, findTileLoop], rfl, rfl⟩,
     (1300, 10),
     ⟨[⟨7, 300, 10, 0⟩], ⟨7, 300, 10, 0⟩, rfl, by simp [findTile, findTileLoop], rfl, rfl⟩,
     (1400, 10),
     ⟨[⟨7, 400, 10, 0⟩], ⟨7, 400, 10, 0⟩, rfl, by simp [findTile, findTileLoop], rfl, rfl⟩,
     rfl⟩).2 rfl

theorem idGo_step (pos : Nat) (x y : Int) (s r : Nat) :
    idGo pos x y s (r + 1) =
      idGo pos (decStep pos s (x, y)).1 (decStep pos s (x, y)).2 (s * 2) r := rfl

theorem idGo_peel_last (pos : Nat) :
    ∀ (r : Nat) (x y : Int) (s : Nat),
      idGo pos x y s (r + 1) = decStep pos (s * 2 ^ r) (idGo pos x y s r) := by
  intro r
  induction r with
  | zero =>
    intro x y s
    rw [idGo_step]
    simp only [idGo, pow_zero, mul_one]
  | succ n ih =>
    intro x y s
    rw [idGo_step, ih, ← idGo_step]
    rw [show s * 2 * 2 ^ n = s * 2 ^ (n + 1) from by rw [pow_succ]; ring]

theorem div_mod_congr (k S x y : Nat) (hS : 0 < S) (h : x % (k * S) = y % (k * S)) :
    x / S % k = y / S % k := by
  have hx : ∀ z : Nat, z / S % k = z % (k * S) / S % k := by
    intro z
    conv_lhs => rw [← Nat.mod_add_div z (k * S)]
    rw [show z % (k * S) + k * S * (z / (k * S)) = z % (k * S) + S * (k * (z / (k * S))) from by
      ring]
    rw [Nat.add_mul_div_left _ _ hS, Nat.add_mul_mod_self_left]
  rw [hx x, hx y, h]

theorem xor_mod_two (a b : Nat) : (a ^^^ b) % 2 = a % 2 ^^^ b % 2 := by
  rw [← Nat.and_one_is_mod, ← Nat.and_one_is_mod, ← Nat.and_one_is_mod,
    Nat.and_xor_distrib_right]

theorem nat_and_two_pow (a j : Nat) : a &&& 2 ^ j = a / 2 ^ j % 2 * 2 ^ j := by
  rw [Nat.and_two_pow]
  rcases Nat.mod_two_eq_zero_or_one (a / 2 ^ j) with h | h <;>
    simp [Nat.testBit_to_div_mod, h]

theorem emod_congr_dvd (n m x y : Int) (hd : n ∣ m) (h : x % m = y % m) : x % n = y % n := by
  rw [← Int.emod_emod_of_dvd x hd, ← Int.emod_emod_of_dvd y hd, h]

theorem jsAnd_eq (x : Int) (j : Nat) (hj : j + 1 ≤ 32) :
    jsAnd x (2 ^ j) = (x % 2 ^ (j + 1)).toNat / 2 ^ j % 2 * 2 ^ j := by
  unfold jsAnd
  rw [nat_and_two_pow]
  have hdvd : ((2 : Int) ^ (j + 1)) ∣ 4294967296 := by
    have : (4294967296 : Int) = 2 ^ 32 := by norm_num
    rw [this]
    exact pow_dvd_pow 2 hj
  have ha : (0 : Int) ≤ x % 4294967296 := Int.emod_nonneg x (by norm_num)
  have hb : (0 : Int) ≤ x % 2 ^ (j + 1) := Int.emod_nonneg x (by positivity)
  have h1 : (x % 4294967296) % 2 ^ (j + 1) = x % 2 ^ (j + 1) :=
    Int.emod_emod_of_dvd x hdvd
  have h2 : (x % 4294967296).toNat % 2 ^ (j + 1) = (x % 2 ^ (j + 1)).toNat := by
    have hcast : (((x % 4294967296).toNat % 2 ^ (j + 1) : Nat) : Int) = x % 2 ^ (j + 1) := by
      push_cast [Int.toNat_of_nonneg ha]
      exact h1
    have := congrArg Int.toNat hcast
    rwa [Int.toNat_natCast] at this
  have h3 : (x % 4294967296).toNat / 2 ^ j % 2 = (x % 2 ^ (j + 1)).toNat / 2 ^ j % 2 := by
    apply div_mod_congr 2 (2 ^ j) _ _ (Nat.pos_pow_of_pos j (by norm_num))
    rw [show 2 * 2 ^ j = 2 ^ (j + 1) from by rw [pow_succ]; ring]
    rw [h2, Nat.mod_eq_of_lt]
    have hlt : x % 2 ^ (j + 1) < 2 ^ (j + 1) :=
      Int.emod_lt_of_pos x (by positivity)
    omega
  rw [h3]

theorem rot_congr (s : Nat) (n : Int) (x x2 y y2 : Int) (rx ry : Nat)
    (hx : x % n = x2 % n) (hy : y % n = y2 % n) :
    (rotate s x y rx ry).1 % n = (rotate s x2 y2 rx ry).1 % n ∧
    (rotate s x y rx ry).2 % n = (rotate s x2 y2 rx ry).2 % n := by
  unfold rotate
  split_ifs with h1 h2
  · exact ⟨Int.ModEq.sub (Int.ModEq.refl _) hy, Int.ModEq.sub (Int.ModEq.refl _) hx⟩
  · exact ⟨hy, hx⟩
  · exact ⟨hx, hy⟩

theorem zxyGo_congr : ∀ (j : Nat), j ≤ 32 → ∀ (x x2 y y2 : Int),
    x % 2 ^ j = x2 % 2 ^ j → y % 2 ^ j = y2 % 2 ^ j →
    zxyGo x y j = zxyGo x2 y2 j := by
  intro j
  induction j with
  | zero => intros; rfl
  | succ n ih =>
    intro hj x x2 y y2 hx hy
    have hn1 : n + 1 ≤ 32 := hj
    have hbx : jsAnd x (2 ^ n) = jsAnd x2 (2 ^ n) := by
      rw [jsAnd_eq x n hn1, jsAnd_eq x2 n hn1, hx]
    have hby : jsAnd y (2 ^ n) = jsAnd y2 (2 ^ n) := by
      rw [jsAnd_eq y n hn1, jsAnd_eq y2 n hn1, hy]
    have hdvd : ((2 : Int) ^ n) ∣ 2 ^ (n + 1) := pow_dvd_pow 2 (by omega)
    have hx1 : x % (2 : Int) ^ n = x2 % 2 ^ n := by
      have hc : ((2 : Int) ^ (n + 1)) = ((2 ^ (n + 1) : Nat) : Int) := by push_cast; ring
      exact emod_congr_dvd _ _ _ _ hdvd (by rw [hc]; exact_mod_cast hx)
    have hy1 : y % (2 : Int) ^ n = y2 % 2 ^ n := by
      have hc : ((2 : Int) ^ (n + 1)) = ((2 ^ (n + 1) : Nat) : Int) := by push_cast; ring
      exact emod_congr_dvd _ _ _ _ hdvd (by rw [hc]; exact_mod_cast hy)
    simp only [zxyGo]
    rw [hbx, hby]
    congr 1
    obtain ⟨h1, h2⟩ := rot_congr (2 ^ n) (2 ^ n) x x2 y y2
      (if jsAnd x2 (2 ^ n) > 0 then 1 else 0) (if jsAnd y2 (2 ^ n) > 0 then 1 else 0) hx1 hy1
    exact ih (by omega) _ _ _ _ h1 h2

theorem zxyGo_lt : ∀ (j : Nat) (x y : Int), zxyGo x y j < 4 ^ j := by
  intro j
  induction j with
  | zero =>
    intro x y
    simp [zxyGo]
  | succ n ih =>
    intro x y
    simp only [zxyGo]
    have h44 : (4 : Nat) ^ n = 2 ^ n * 2 ^ n := by
      rw [show (4 : Nat) = 2 * 2 from rfl, Nat.mul_pow]
    have hq : 3 * (if jsAnd x (2 ^ n) > 0 then 1 else 0) ^^^
        (if jsAnd y (2 ^ n) > 0 then 1 else 0) ≤ 3 := by
      split_ifs <;> decide
    have hrec := ih (rotate (2 ^ n) x y (if jsAnd x (2 ^ n) > 0 then 1 else 0)
      (if jsAnd y (2 ^ n) > 0 then 1 else 0)).1
      (rotate (2 ^ n) x y (if jsAnd x (2 ^ n) > 0 then 1 else 0)
        (if jsAnd y (2 ^ n) > 0 then 1 else 0)).2
    rw [h44] at hrec
    calc 2 ^ n * 2 ^ n * (3 * (if jsAnd x (2 ^ n) > 0 then 1 else 0) ^^^
          (if jsAnd y (2 ^ n) > 0 then 1 else 0)) +
        zxyGo (rotate (2 ^ n) x y (if jsAnd x (2 ^ n) > 0 then 1 else 0)
          (if jsAnd y (2 ^ n) > 0 then 1 else 0)).1
          (rotate (2 ^ n) x y (if jsAnd x (2 ^ n) > 0 then 1 else 0)
            (if jsAnd y (2 ^ n) > 0 then 1 else 0)).2 n
        ≤ 2 ^ n * 2 ^ n * 3 + zxyGo (rotate (2 ^ n) x y
            (if jsAnd x (2 ^ n) > 0 then 1 else 0)
            (if jsAnd y (2 ^ n) > 0 then 1 else 0)).1
          (rotate (2 ^ n) x y (if jsAnd x (2 ^ n) > 0 then 1 else 0)
            (if jsAnd y (2 ^ n) > 0 then 1 else 0)).2 n := by
          exact Nat.add_le_add_right (Nat.mul_le_mul_left _ hq) _
      _ < 2 ^ n * 2 ^ n * 3 + 2 ^ n * 2 ^ n := Nat.add_lt_add_left hrec _
      _ = 4 ^ (n + 1) := by rw [pow_succ, h44]; ring

theorem idGo_congr : ∀ (r : Nat) (pos pos2 : Nat) (x y : Int) (s : Nat), 0 < s →
    pos % (s * s * 4 ^ r) = pos2 % (s * s * 4 ^ r) →
    idGo pos x y s r = idGo pos2 x y s r := by
  intro r
  induction r with
  | zero => intros; rfl
  | succ n ih =>
    intro pos pos2 x y s hs h
    have hS : 0 < s * s := Nat.mul_pos hs hs
    have ht4 : pos % (4 * (s * s)) = pos2 % (4 * (s * s)) := by
      have hd : (4 * (s * s)) ∣ (s * s * 4 ^ (n + 1)) := ⟨4 ^ n, by rw [pow_succ]; ring⟩
      rw [← Nat.mod_mod_of_dvd pos hd, ← Nat.mod_mod_of_dvd pos2 hd, h]
    have ht : pos / (s * s) % 4 = pos2 / (s * s) % 4 := div_mod_congr 4 (s * s) _ _ hS ht4
    have hrx : pos / (s * s) / 2 % 2 = pos2 / (s * s) / 2 % 2 := by omega
    have htm : pos / (s * s) % 2 = pos2 / (s * s) % 2 := by omega
    have hry : (pos / (s * s) ^^^ pos / (s * s) / 2 % 2) % 2 =
        (pos2 / (s * s) ^^^ pos2 / (s * s) / 2 % 2) % 2 := by
      rw [xor_mod_two, xor_mod_two, htm, hrx]
    simp only [idGo]
    rw [hry, hrx]
    have h2 : pos % (s * 2 * (s * 2) * 4 ^ n) = pos2 % (s * 2 * (s * 2) * 4 ^ n) := by
      rw [show s * 2 * (s * 2) * 4 ^ n = s * s * 4 ^ (n + 1) from by rw [pow_succ]; ring]
      exact h
    exact ih pos pos2 _ _ (s * 2) (by omega) h2

theorem hilbert_inv : ∀ (j : Nat), j ≤ 26 → ∀ (x y : Int),
    0 ≤ x → x < 2 ^ j → 0 ≤ y → y < 2 ^ j →
    idGo (zxyGo x y j) 0 0 1 j = (x, y) := by
  intro j
  induction j with
  | zero =>
    intro _ x y hx0 hx1 hy0 hy1
    have hx : x = 0 := by omega
    have hy : y = 0 := by omega
    subst hx hy
    rfl
  | succ n ih =>
    intro hj x y hx0 hx1 hy0 hy1
    have hn : n ≤ 26 := by omega
    have h2n : (0 : Int) < 2 ^ n := by positivity
    have hsplit : (2 : Int) ^ (n + 1) = 2 ^ n * 2 := by rw [pow_succ]
    -- the bit of x at position n
    have hjx : ∀ z : Int, 0 ≤ z → z < 2 ^ (n + 1) →
        jsAnd z (2 ^ n) = (if 2 ^ n ≤ z then 2 ^ n else 0) := by
      intro z hz0 hz1
      rw [jsAnd_eq z n (by omega), Int.emod_eq_of_lt hz0 (by exact_mod_cast hz1)]
      have hzn : ((z.toNat : Int)) = z := Int.toNat_of_nonneg hz0
      have hcast : ((2 ^ n : Nat) : Int) = 2 ^ n := by push_cast; ring
      rcases le_or_lt (2 ^ n : Int) z with hge | hlt
      · rw [if_pos hge]
        have h2 : z.toNat < 2 ^ n * 2 := by
          have h3 := hz1
          rw [hsplit] at h3
          omega
        have hd : z.toNat / 2 ^ n = 1 := by
          rw [Nat.div_eq_sub_div (by positivity) (by omega), Nat.div_eq_of_lt (by omega)]
        rw [hd]
        norm_num
      · rw [if_neg (by omega)]
        have hd : z.toNat / 2 ^ n = 0 := Nat.div_eq_of_lt (by omega)
        rw [hd]
        norm_num
    have h44 : (2 : Nat) ^ n * 2 ^ n = 4 ^ n := by
      rw [show (4 : Nat) = 2 * 2 from rfl, Nat.mul_pow]
    have hdiv : ∀ q d2 : Nat, d2 < 2 ^ n * 2 ^ n →
        (2 ^ n * 2 ^ n * q + d2) / (2 ^ n * 2 ^ n) = q := by
      intro q d2 h
      rw [Nat.mul_add_div (by positivity), Nat.div_eq_of_lt h, Nat.add_zero]
    rcases le_or_lt (2 ^ n : Int) y with hyge | hylt
    · -- y ≥ 2^n : ry = 1, the rotation is the identity
      have hry : (if jsAnd y (2 ^ n) > 0 then 1 else 0) = 1 := by
        rw [hjx y hy0 hy1, if_pos hyge, if_pos (by positivity)]
      have hyb : y - 2 ^ n < 2 ^ n := by omega
      have hycong : y % (2 : Int) ^ n = (y - 2 ^ n) % 2 ^ n := by
        conv_lhs => rw [show y = y - 2 ^ n + 2 ^ n * 1 from by ring]
        rw [Int.add_mul_emod_self_left]
      rcases le_or_lt (2 ^ n : Int) x with hxge | hxlt
      · -- x ≥ 2^n too : quadrant digit (3 * 1) ^^^ 1 = 2
        have hrx : (if jsAnd x (2 ^ n) > 0 then 1 else 0) = 1 := by
          rw [hjx x hx0 hx1, if_pos hxge, if_pos (by positivity)]
        have hxb : x - 2 ^ n < 2 ^ n := by omega
        have hxcong : x % (2 : Int) ^ n = (x - 2 ^ n) % 2 ^ n := by
          conv_lhs => rw [show x = x - 2 ^ n + 2 ^ n * 1 from by ring]
          rw [Int.add_mul_emod_self_left]
        have henc : zxyGo x y (n + 1) =
            2 ^ n * 2 ^ n * 2 + zxyGo (x - 2 ^ n) (y - 2 ^ n) n := by
          simp only [zxyGo]
          rw [hrx, hry]
          rw [show (3 * 1) ^^^ 1 = 2 from rfl]
          simp only [rotate, if_neg (by norm_num : ¬ (1 : Nat) = 0)]
          rw [zxyGo_congr n (by omega) x (x - 2 ^ n) y (y - 2 ^ n) hxcong hycong]
        have hlt2 : zxyGo (x - 2 ^ n) (y - 2 ^ n) n < 2 ^ n * 2 ^ n := by
          have hz := zxyGo_lt n (x - 2 ^ n) (y - 2 ^ n)
          rw [← h44] at hz
          exact hz
        have hIH := ih hn (x - 2 ^ n) (y - 2 ^ n) (by omega) hxb (by omega) hyb
        rw [henc, idGo_peel_last, one_mul]
        rw [idGo_congr n _ (zxyGo (x - 2 ^ n) (y - 2 ^ n) n) 0 0 1 (by norm_num)
          (by simp only [one_mul, ← h44, Nat.mul_add_mod])]
        rw [hIH]
        simp only [decStep]
        rw [hdiv 2 _ hlt2]
        rw [show (2 : Nat) / 2 % 2 = 1 from rfl, show ((2 : Nat) ^^^ 1) % 2 = 1 from rfl]
        simp only [rotate, if_neg (by norm_num : ¬ (1 : Nat) = 0)]
        simp only [Prod.mk.injEq]
        constructor <;> push_cast <;> omega
      · -- x < 2^n : quadrant digit (3 * 0) ^^^ 1 = 1
        have hrx : (if jsAnd x (2 ^ n) > 0 then 1 else 0) = 0 := by
          rw [hjx x hx0 hx1, if_neg (not_le.mpr hxlt)]
          norm_num
        have henc : zxyGo x y (n + 1) =
            2 ^ n * 2 ^ n * 1 + zxyGo x (y - 2 ^ n) n := by
          simp only [zxyGo]
          rw [hrx, hry]
          rw [show (3 * 0) ^^^ 1 = 1 from rfl]
          simp only [rotate, if_neg (by norm_num : ¬ (1 : Nat) = 0)]
          rw [zxyGo_congr n (by omega) x x y (y - 2 ^ n) rfl hycong]
        have hlt2 : zxyGo x (y - 2 ^ n) n < 2 ^ n * 2 ^ n := by
          have hz := zxyGo_lt n x (y - 2 ^ n)
          rw [← h44] at hz
          exact hz
        have hIH := ih hn x (y - 2 ^ n) hx0 hxlt (by omega) hyb
        rw [henc, idGo_peel_last, one_mul]
        rw [idGo_congr n _ (zxyGo x (y - 2 ^ n) n) 0 0 1 (by norm_num)
          (by simp only [one_mul, ← h44, Nat.mul_add_mod])]
        rw [hIH]
        simp only [decStep]
        rw [hdiv 1 _ hlt2]
        rw [show (1 : Nat) / 2 % 2 = 0 from rfl, show ((1 : Nat) ^^^ 0) % 2 = 1 from rfl]
        simp only [rotate, if_neg (by norm_num : ¬ (1 : Nat) = 0)]
        simp only [Prod.mk.injEq]
        constructor <;> push_cast <;> omega
    · rcases le_or_lt (2 ^ n : Int) x with hxge | hxlt
      · -- x ≥ 2^n, y < 2^n : quadrant digit (3 * 1) ^^^ 0 = 3, reflect and swap
        have hrx : (if jsAnd x (2 ^ n) > 0 then 1 else 0) = 1 := by
          rw [hjx x hx0 hx1, if_pos hxge, if_pos (by positivity)]
        have hry : (if jsAnd y (2 ^ n) > 0 then 1 else 0) = 0 := by
          rw [hjx y hy0 hy1, if_neg (not_le.mpr hylt)]
          norm_num
        have hbcong : (((2 ^ n : Nat) : Int) - 1 - x) % (2 : Int) ^ n =
            (2 * 2 ^ n - 1 - x) % 2 ^ n := by
          push_cast
          rw [show (2 * 2 ^ n - 1 - x : Int) = (2 ^ n - 1 - x) + 2 ^ n * 1 from by ring,
            Int.add_mul_emod_self_left]
        have henc : zxyGo x y (n + 1) =
            2 ^ n * 2 ^ n * 3 +
              zxyGo (2 ^ n - 1 - y) (2 * 2 ^ n - 1 - x) n := by
          simp only [zxyGo]
          rw [hrx, hry]
          rw [show (3 * 1) ^^^ 0 = 3 from rfl]
          simp only [rotate, eq_self_iff_true, if_true]
          rw [zxyGo_congr n (by omega) ((2 ^ n : Nat) - 1 - y) (2 ^ n - 1 - y)
            ((2 ^ n : Nat) - 1 - x) (2 * 2 ^ n - 1 - x) (by push_cast; ring_nf) hbcong]
        have hlt2 : zxyGo (2 ^ n - 1 - y) (2 * 2 ^ n - 1 - x) n < 2 ^ n * 2 ^ n := by
          have hz := zxyGo_lt n ((2 : Int) ^ n - 1 - y) (2 * 2 ^ n - 1 - x)
          rw [← h44] at hz
          exact hz
        have hIH := ih hn (2 ^ n - 1 - y) (2 * 2 ^ n - 1 - x)
          (by omega) (by omega) (by omega) (by omega)
        rw [henc, idGo_peel_last, one_mul]
        rw [idGo_congr n _ (zxyGo ((2 : Int) ^ n - 1 - y) (2 * 2 ^ n - 1 - x) n) 0 0 1
          (by norm_num) (by simp only [one_mul, ← h44, Nat.mul_add_mod])]
        rw [hIH]
        simp only [decStep]
        rw [hdiv 3 _ hlt2]
        rw [show (3 : Nat) / 2 % 2 = 1 from rfl, show ((3 : Nat) ^^^ 1) % 2 = 0 from rfl]
        simp only [rotate, eq_self_iff_true, if_true]
        simp only [Prod.mk.injEq]
        constructor <;> push_cast <;> omega
      · -- x < 2^n, y < 2^n : quadrant digit 0, plain swap
        have hrx : (if jsAnd x (2 ^ n) > 0 then 1 else 0) = 0 := by
          rw [hjx x hx0 hx1, if_neg (not_le.mpr hxlt)]
          norm_num
        have hry : (if jsAnd y (2 ^ n) > 0 then 1 else 0) = 0 := by
          rw [hjx y hy0 hy1, if_neg (not_le.mpr hylt)]
          norm_num
        have henc : zxyGo x y (n + 1) = zxyGo y x n := by
          simp only [zxyGo]
          rw [hrx, hry]
          simp [rotate]
        have hlt2 : zxyGo y x n < 2 ^ n * 2 ^ n := by
          have hz := zxyGo_lt n y x
          rw [← h44] at hz
          exact hz
        have hIH := ih hn y x hy0 hylt hx0 hxlt
        rw [henc, idGo_peel_last, one_mul, hIH]
        simp only [decStep]
        rw [Nat.div_eq_of_lt hlt2]
        simp [rotate]

theorem tzValues_succ : ∀ z : Nat, z < 26 → tzValues.getD (z + 1) 0 = tzValues.getD z 0 + 4 ^ z := by
  decide

theorem tzValues_mono : ∀ (b a : Nat), a ≤ b → b ≤ 26 → tzValues.getD a 0 ≤ tzValues.getD b 0 := by
  intro b
  induction b with
  | zero =>
    intro a h1 _
    have ha : a = 0 := by omega
    subst ha
    exact Nat.le_refl _
  | succ m ihm =>
    intro a h1 h2
    rcases Nat.eq_or_lt_of_le h1 with heq | hlt
    · rw [heq]
    · have hm := ihm a (by omega) (by omega)
      rw [tzValues_succ m (by omega)]
      have hp : 0 < (4 : Nat) ^ m := by positivity
      omega

theorem tileIDToZxyGo_walk : ∀ (fuel z : Nat), z + fuel = 27 → ∀ (target d : Nat),
    z ≤ target → target ≤ 26 → d < 4 ^ target →
    tileIDToZxyGo (tzValues.getD target 0 + d) (tzValues.getD z 0) z fuel =
      .ok (idOnLevel target d) := by
  intro fuel
  induction fuel with
  | zero =>
    intro z hz target d h1 h2 h3
    omega
  | succ f ihf =>
    intro z hz target d h1 h2 h3
    have h44z : (2 : Nat) ^ z * 2 ^ z = 4 ^ z := by
      rw [show (4 : Nat) = 2 * 2 from rfl, Nat.mul_pow]
    rcases Nat.eq_or_lt_of_le h1 with heq | hlt
    · subst heq
      simp only [tileIDToZxyGo]
      rw [if_pos (by omega)]
      rw [show tzValues.getD z 0 + d - tzValues.getD z 0 = d from by omega]
    · have hstep := tzValues_succ z (by omega)
      have hmono := tzValues_mono target (z + 1) (by omega) (by omega)
      simp only [tileIDToZxyGo]
      rw [if_neg (by omega)]
      rw [show tzValues.getD z 0 + 2 ^ z * 2 ^ z = tzValues.getD (z + 1) 0 from by
        rw [hstep, h44z]]
      exact ihf (z + 1) (by omega) target d (by omega) h2 h3

/-- C1: the Hilbert tile-ID encoding is a bijection on each level: for every
`z ≤ 26` and `x, y < 2^z`, `zxyToTileID` succeeds and `tileIDToZxy` maps the
resulting ID back to exactly `(z, x, y)`. -/
theorem hilbert_roundtrip (z x y : Nat) (hz : z ≤ 26) (hx : x < 2 ^ z) (hy : y < 2 ^ z) :
    ∃ id, zxyToTileID z (x : Int) (y : Int) = .ok id ∧
      tileIDToZxy id = .ok (z, (x : Int), (y : Int)) := by
  have hxI : ((x : Int)) < 2 ^ z := by exact_mod_cast hx
  have hyI : ((y : Int)) < 2 ^ z := by exact_mod_cast hy
  refine ⟨tzValues.getD z 0 + zxyGo x y z, ?_, ?_⟩
  · unfold zxyToTileID
    rw [if_neg (by omega), if_neg (by push_neg; omega)]
  · unfold tileIDToZxy
    have hwalk := tileIDToZxyGo_walk 27 0 rfl z (zxyGo (x : Int) (y : Int) z)
      (Nat.zero_le z) hz (zxyGo_lt z (x : Int) (y : Int))
    rw [show tzValues.getD 0 0 = 0 from rfl] at hwalk
    rw [hwalk]
    unfold idOnLevel
    rw [hilbert_inv z hz (x : Int) (y : Int) (Int.natCast_nonneg x) hxI
      (Int.natCast_nonneg y) hyI]

theorem hilbert_roundtrip_witness :
    ∃ id, zxyToTileID 5 ((11 : Nat) : Int) ((22 : Nat) : Int) = .ok id ∧
      tileIDToZxy id = .ok (5, ((11 : Nat) : Int), ((22 : Nat) : Int)) :=
  hilbert_roundtrip 5 11 22 (by norm_num) (by norm_num) (by norm_num)
